import Mathlib

/-!
# Verification of the media-optimizer LRU cache, cache-key derivation and
# batch pipeline

Shallow embedding of the TypeScript sources
`projects/media-optimizer/src/lib/shared/lru-cache.ts`,
`image-utils.service.ts` and `media-optimizer.service.ts`.

A JavaScript `Map` preserves insertion order, so it is modelled as an
association list ordered from first-inserted (front) to last-inserted
(back).  `Map.set` of an existing key updates the value in place (the
entry keeps its position); `Map.set` of a fresh key appends at the back;
`Map.delete` removes the entry with that key; `Map.keys().next().value`
is the key of the front entry.
-/

namespace MediaOptimizer

variable {K V : Type} [DecidableEq K]

/-- `Map.get`: value of the first entry with the given key. -/
def mapGet : List (K × V) → K → Option V
  | [], _ => none
  | (k', v') :: t, k => if k' = k then some v' else mapGet t k

/-- `Map.set`: replace in place if the key is present, else append at the back. -/
def mapSet : List (K × V) → K → V → List (K × V)
  | [], k, v => [(k, v)]
  | (k', v') :: t, k, v => if k' = k then (k, v) :: t else (k', v') :: mapSet t k v

/-- `Map.delete`: remove the entry with the given key. -/
def mapDelete (l : List (K × V)) (k : K) : List (K × V) :=
  l.filter (fun p => p.1 ≠ k)

/-- `Map.has`. -/
def mapHas (l : List (K × V)) (k : K) : Bool :=
  (mapGet l k).isSome

/-- The `LRUCache<K, V>` class of `shared/lru-cache.ts`: a JS `Map` (front =
least recently used, back = most recently used) plus the capacity. -/
structure LRUCache (K V : Type) where
  cache : List (K × V)
  maxSize : Nat

/-- The constructor `new LRUCache(maxSize)` (default 100): empty map. -/
def LRUCache.empty (maxSize : Nat := 100) : LRUCache K V :=
  ⟨[], maxSize⟩

/-- `LRUCache.get`: on a hit the entry is deleted and re-inserted at the back
(most recently used); on a miss nothing changes.  Returns the looked-up value
together with the updated cache (the TS method mutates `this.cache`). -/
def LRUCache.get (c : LRUCache K V) (k : K) : Option V × LRUCache K V :=
  match mapGet c.cache k with
  | some v => (some v, { c with cache := mapSet (mapDelete c.cache k) k v })
  | none => (none, c)

/-- `LRUCache.set`: an existing key is deleted first (so the re-insert moves it
to the back); otherwise, at capacity, the front (least recently used) entry is
evicted — guarded by `firstKey !== undefined`, i.e. only when the map is
non-empty.  Finally the entry is inserted at the back. -/
def LRUCache.set (c : LRUCache K V) (k : K) (v : V) : LRUCache K V :=
  let cache' :=
    if mapHas c.cache k then
      mapDelete c.cache k
    else if c.cache.length ≥ c.maxSize then
      match c.cache with
      | [] => c.cache
      | (k₀, _) :: _ => mapDelete c.cache k₀
    else c.cache
  { c with cache := mapSet cache' k v }

/-- `LRUCache.has`: does not touch recency order. -/
def LRUCache.has (c : LRUCache K V) (k : K) : Bool :=
  mapHas c.cache k

/-- `LRUCache.clear`. -/
def LRUCache.clear (c : LRUCache K V) : LRUCache K V :=
  { c with cache := [] }

/-- `LRUCache.size` getter. -/
def LRUCache.size (c : LRUCache K V) : Nat :=
  c.cache.length

/-! ## Association-list lemmas -/

theorem mapGet_mapSet_self (l : List (K × V)) (k : K) (v : V) :
    mapGet (mapSet l k v) k = some v := by
  induction l with
  | nil => simp [mapSet, mapGet]
  | cons p t ih =>
    obtain ⟨k', v'⟩ := p
    by_cases h : k' = k
    · simp [mapSet, mapGet, h]
    · simp [mapSet, mapGet, h, ih]

theorem mapGet_mapSet_ne (l : List (K × V)) (k k' : K) (v : V) (h : k ≠ k') :
    mapGet (mapSet l k v) k' = mapGet l k' := by
  induction l with
  | nil => simp [mapSet, mapGet, h]
  | cons p t ih =>
    obtain ⟨k₁, v₁⟩ := p
    by_cases h₁ : k₁ = k
    · subst h₁
      simp [mapSet, mapGet, h]
    · simp only [mapSet, if_neg h₁, mapGet]
      by_cases h₂ : k₁ = k'
      · simp [h₂]
      · simp [h₂, ih]

theorem mapGet_mapDelete_self (l : List (K × V)) (k : K) :
    mapGet (mapDelete l k) k = none := by
  induction l with
  | nil => simp [mapDelete, mapGet]
  | cons p t ih =>
    obtain ⟨k', v'⟩ := p
    by_cases h : k' = k
    · simpa [mapDelete, List.filter, h] using ih
    · simpa [mapDelete, List.filter, h, mapGet] using ih

theorem mapGet_mapDelete_ne (l : List (K × V)) (k k' : K) (h : k ≠ k') :
    mapGet (mapDelete l k) k' = mapGet l k' := by
  induction l with
  | nil => simp [mapDelete, mapGet]
  | cons p t ih =>
    obtain ⟨k₁, v₁⟩ := p
    simp only [mapDelete, List.filter_cons, ne_eq, decide_not] at ih ⊢
    by_cases h₁ : k₁ = k
    · subst h₁
      simp [mapGet, h, ih]
    · by_cases h₂ : k₁ = k' <;> simp [mapGet, h₁, h₂, ih, Ne.symm h]

theorem mapSet_of_absent (l : List (K × V)) (k : K) (v : V)
    (h : mapGet l k = none) : mapSet l k v = l ++ [(k, v)] := by
  induction l with
  | nil => simp [mapSet]
  | cons p t ih =>
    obtain ⟨k', v'⟩ := p
    by_cases hk : k' = k
    · simp [mapGet, hk] at h
    · simp only [mapGet, if_neg hk] at h
      simp [mapSet, hk, ih h]

theorem length_mapSet_le (l : List (K × V)) (k : K) (v : V) :
    (mapSet l k v).length ≤ l.length + 1 := by
  induction l with
  | nil => simp [mapSet]
  | cons p t ih =>
    obtain ⟨k', v'⟩ := p
    by_cases h : k' = k
    · simp [mapSet, h]
    · simp only [mapSet, if_neg h, List.length_cons]
      omega

theorem length_mapDelete_le (l : List (K × V)) (k : K) :
    (mapDelete l k).length ≤ l.length :=
  List.length_filter_le _ l

theorem length_mapDelete_lt (l : List (K × V)) (k : K) (v : V)
    (h : mapGet l k = some v) : (mapDelete l k).length < l.length := by
  induction l with
  | nil => simp [mapGet] at h
  | cons p t ih =>
    obtain ⟨k', v'⟩ := p
    by_cases hk : k' = k
    · have hle := length_mapDelete_le t k
      simp only [mapDelete] at hle ⊢
      simp only [List.filter_cons, hk]
      simp only [ne_eq, not_true_eq_false]
      simp only [List.length_cons]
      simpa using Nat.lt_succ_of_le hle
    · simp only [mapGet, if_neg hk] at h
      have hlt := ih h
      simp only [mapDelete] at hlt ⊢
      simp only [List.filter_cons, ne_eq, hk]
      simp only [not_false_eq_true]
      simpa using Nat.succ_lt_succ hlt

/-! ## LRU cache behaviour (claims C1 and C4) -/

theorem mapGet_cons_none {k₀ k : K} {v₀ : V} {tl : List (K × V)}
    (h : mapGet ((k₀, v₀) :: tl) k = none) : k₀ ≠ k ∧ mapGet tl k = none := by
  by_cases hk : k₀ = k
  · simp [mapGet, hk] at h
  · simp only [mapGet, if_neg hk] at h
    exact ⟨hk, h⟩

theorem mapDelete_head_of_nodup {k₀ : K} {v₀ : V} {tl : List (K × V)}
    (hnd : ((((k₀, v₀) :: tl).map Prod.fst).Nodup)) :
    mapDelete ((k₀, v₀) :: tl) k₀ = tl := by
  simp only [List.map_cons, List.nodup_cons] at hnd
  have hhead : mapDelete ((k₀, v₀) :: tl) k₀ = mapDelete tl k₀ := by
    simp [mapDelete, List.filter_cons]
  rw [hhead]
  refine List.filter_eq_self.mpr fun p hp => ?_
  have hne : p.1 ≠ k₀ := fun hc => hnd.1 (hc ▸ List.mem_map_of_mem Prod.fst hp)
  simpa using hne

/-- C1 — LRU correctness: a `get` hit promotes the touched entry to the
most-recently-used (back) position and returns its value; a `set` of a key
not present while the cache holds `maxSize` entries evicts exactly the
least-recently-touched (front) entry before inserting at the back; and in the
concrete capacity-2 run `set A, set B, get A, set C` the key `B` is absent
while `A` and `C` are both present. -/
theorem claim_C1_lru_semantics {K V : Type} [DecidableEq K]
    (c : LRUCache K V) (k kNew : K) (v w : V) (k₀ : K) (v₀ : V) (tl : List (K × V)) :
    (mapGet c.cache k = some v →
      (c.get k).1 = some v ∧
      ((c.get k).2.cache) = mapDelete c.cache k ++ [(k, v)] ∧
      ((c.get k).2.cache).getLast? = some (k, v)) ∧
    ((c.cache.map Prod.fst).Nodup → c.has kNew = false → c.size = c.maxSize →
      c.cache = (k₀, v₀) :: tl →
      (c.set kNew w).cache = tl ++ [(kNew, w)]) ∧
    ((((((LRUCache.empty 2 : LRUCache Nat Nat).set 1 10).set 2 20).get 1).2.set 3 30).has 2 = false ∧
     (((((LRUCache.empty 2 : LRUCache Nat Nat).set 1 10).set 2 20).get 1).2.set 3 30).has 1 = true ∧
     (((((LRUCache.empty 2 : LRUCache Nat Nat).set 1 10).set 2 20).get 1).2.set 3 30).has 3 = true) := by
  refine ⟨fun hget => ?_, fun hnd hhas hsize hcache => ?_, by decide⟩
  · have hdel : mapGet (mapDelete c.cache k) k = none := mapGet_mapDelete_self c.cache k
    have hset : mapSet (mapDelete c.cache k) k v = mapDelete c.cache k ++ [(k, v)] :=
      mapSet_of_absent _ k v hdel
    refine ⟨?_, ?_, ?_⟩
    · simp [LRUCache.get, hget]
    · simp [LRUCache.get, hget, hset]
    · simp [LRUCache.get, hget, hset, List.getLast?_concat]
  · have hnone : mapGet c.cache kNew = none := by
      simp only [LRUCache.has, mapHas] at hhas
      cases hmg : mapGet c.cache kNew with
      | none => rfl
      | some v' => rw [hmg] at hhas; simp at hhas
    have hlen : c.cache.length ≥ c.maxSize := le_of_eq hsize.symm
    have hnone' : mapGet ((k₀, v₀) :: tl) kNew = none := hcache ▸ hnone
    obtain ⟨hk₀, htl⟩ := mapGet_cons_none hnone'
    simp only [LRUCache.set, mapHas, hnone, Option.isSome_none, Bool.false_eq_true,
      if_false, if_pos hlen]
    rw [hcache]
    show mapSet (mapDelete ((k₀, v₀) :: tl) k₀) kNew w = tl ++ [(kNew, w)]
    rw [mapDelete_head_of_nodup (hcache ▸ hnd), mapSet_of_absent tl kNew w htl]

/-- Witness for C1 at a concrete capacity-2 cache `[(5, 50), (6, 60)]`:
`get 5` hits and promotes; `set 7` evicts the front entry `(5, 50)`. -/
theorem claim_C1_witness :
    (((⟨[(5, 50), (6, 60)], 2⟩ : LRUCache Nat Nat).get 5).1 = some 50 ∧
      ((⟨[(5, 50), (6, 60)], 2⟩ : LRUCache Nat Nat).get 5).2.cache =
        mapDelete [(5, 50), (6, 60)] 5 ++ [(5, 50)] ∧
      (((⟨[(5, 50), (6, 60)], 2⟩ : LRUCache Nat Nat).get 5).2.cache).getLast? =
        some (5, 50)) ∧
    ((⟨[(5, 50), (6, 60)], 2⟩ : LRUCache Nat Nat).set 7 70).cache =
      [(6, 60)] ++ [(7, 70)] := by
  have h := claim_C1_lru_semantics (⟨[(5, 50), (6, 60)], 2⟩ : LRUCache Nat Nat)
    5 7 50 70 5 50 [(6, 60)]
  exact ⟨h.1 (by decide), h.2.1 (by decide) (by decide) (by decide) rfl⟩

/-- A single cache operation from the public `LRUCache` surface
(`get`, `set`, `has`, `clear`). -/
inductive CacheOp (K V : Type) where
  | get (k : K)
  | set (k : K) (v : V)
  | has (k : K)
  | clear

/-- Effect of one operation on the cache state (`get` mutates recency on a
hit, `has` and a missed `get` leave the state unchanged). -/
def applyOp (c : LRUCache K V) : CacheOp K V → LRUCache K V
  | .get k => (c.get k).2
  | .set k v => c.set k v
  | .has _ => c
  | .clear => c.clear

/-- Folding a sequence of operations over the cache. -/
def applyOps (c : LRUCache K V) : List (CacheOp K V) → LRUCache K V
  | [] => c
  | op :: rest => applyOps (applyOp c op) rest

theorem maxSize_applyOp (c : LRUCache K V) (op : CacheOp K V) :
    (applyOp c op).maxSize = c.maxSize := by
  cases op with
  | get k =>
    simp only [applyOp, LRUCache.get]
    cases mapGet c.cache k <;> simp
  | set k v => simp [applyOp, LRUCache.set]
  | has k => rfl
  | clear => rfl

theorem size_applyOp_le (c : LRUCache K V) (op : CacheOp K V)
    (hmax : 0 < c.maxSize) (hle : c.size ≤ c.maxSize) :
    (applyOp c op).size ≤ c.maxSize := by
  cases op with
  | get k =>
    simp only [applyOp, LRUCache.get]
    cases hget : mapGet c.cache k with
    | none => simpa [LRUCache.size] using hle
    | some v =>
      simp only [LRUCache.size]
      have h₁ := length_mapSet_le (mapDelete c.cache k) k v
      have h₂ := length_mapDelete_lt c.cache k v hget
      simp only [LRUCache.size] at hle
      omega
  | set k v =>
    simp only [applyOp, LRUCache.set, LRUCache.size] at hle ⊢
    by_cases hhas : mapHas c.cache k
    · obtain ⟨w, hw⟩ := Option.isSome_iff_exists.mp hhas
      simp only [hhas, if_true]
      have h₁ := length_mapSet_le (mapDelete c.cache k) k v
      have h₂ := length_mapDelete_lt c.cache k w hw
      omega
    · simp only [hhas, Bool.false_eq_true, if_false]
      by_cases hfull : c.cache.length ≥ c.maxSize
      · simp only [if_pos hfull]
        rcases hc : c.cache with _ | ⟨⟨k₀, v₀⟩, tl⟩
        · rw [hc] at hfull
          simp only [List.length_nil] at hfull
          omega
        · rw [hc] at hfull hle
          show (mapSet (mapDelete ((k₀, v₀) :: tl) k₀) k v).length ≤ c.maxSize
          have hw : mapGet ((k₀, v₀) :: tl) k₀ = some v₀ := by simp [mapGet]
          have h₁ := length_mapSet_le (mapDelete ((k₀, v₀) :: tl) k₀) k v
          have h₂ := length_mapDelete_lt ((k₀, v₀) :: tl) k₀ v₀ hw
          simp only [List.length_cons] at hfull hle h₂
          omega
      · simp only [if_neg hfull]
        have h₁ := length_mapSet_le c.cache k v
        omega
  | has k => exact hle
  | clear => exact Nat.zero_le _

theorem maxSize_applyOps (ops : List (CacheOp K V)) :
    ∀ c : LRUCache K V, (applyOps c ops).maxSize = c.maxSize := by
  induction ops with
  | nil => intro c; rfl
  | cons op rest ih =>
    intro c
    rw [applyOps, ih, maxSize_applyOp]

theorem size_applyOps_le (ops : List (CacheOp K V)) :
    ∀ c : LRUCache K V, 0 < c.maxSize → c.size ≤ c.maxSize →
    (applyOps c ops).size ≤ (applyOps c ops).maxSize := by
  induction ops with
  | nil => exact fun c _ h => h
  | cons op rest ih =>
    intro c hmax hle
    have h₁ := size_applyOp_le c op hmax hle
    have h₂ := maxSize_applyOp c op
    exact ih (applyOp c op) (h₂ ▸ hmax) (h₂ ▸ h₁)

/-- C4 — boundedness invariant: starting from a fresh `LRUCache` with
capacity `maxSize > 0`, no finite sequence of `get`/`set`/`has`/`clear`
operations can make the entry count exceed `maxSize` (every operation is
total, so no operation in the sequence fails). -/
theorem claim_C4_size_bounded {K V : Type} [DecidableEq K]
    (maxSize : Nat) (hpos : 0 < maxSize) (ops : List (CacheOp K V)) :
    (applyOps (LRUCache.empty maxSize) ops).size ≤ maxSize := by
  have h := size_applyOps_le ops (LRUCache.empty maxSize) hpos
    (by simp [LRUCache.empty, LRUCache.size])
  rwa [maxSize_applyOps] at h

/-- Witness for C4 at capacity 3 with a concrete operation sequence that
overfills, touches, clears and refills the cache. -/
theorem claim_C4_witness :
    (applyOps (LRUCache.empty 3 : LRUCache Nat Nat)
      [CacheOp.set 1 1, CacheOp.set 2 2, CacheOp.set 3 3, CacheOp.set 4 4,
       CacheOp.get 1, CacheOp.has 2, CacheOp.clear, CacheOp.set 5 5]).size ≤ 3 :=
  claim_C4_size_bounded 3 (by decide) _

/-! ## Cache-key derivation (claim C5)

`ImageUtilsService.getCacheKey` builds the template literal
`` `${file.name}-${file.size}-${file.lastModified}` ``.  A `File`'s
`size` and `lastModified` are non-negative integers here (the claim's
domain), rendered in decimal by JS string interpolation. -/

/-- A browser `File` as far as this library observes it: `name`, byte
`size`, `lastModified` timestamp and MIME `type`. -/
structure JSFile where
  name : String
  size : Nat
  lastModified : Nat
  type : String
deriving DecidableEq

/-- Decimal digit character (the only characters decimal rendering emits). -/
def digitChar : Nat → Char
  | 0 => '0'
  | 1 => '1'
  | 2 => '2'
  | 3 => '3'
  | 4 => '4'
  | 5 => '5'
  | 6 => '6'
  | 7 => '7'
  | 8 => '8'
  | _ => '9'

/-- Fuel-driven most-significant-first decimal rendering of a `Nat`
(the fuel is always sufficient at `n + 1`). -/
def natCharsAux : Nat → Nat → List Char → List Char
  | 0, _, acc => acc
  | fuel + 1, n, acc =>
    if n < 10 then digitChar n :: acc
    else natCharsAux fuel (n / 10) (digitChar (n % 10) :: acc)

/-- Decimal rendering of a non-negative integer, as JS `${n}` produces. -/
def natStr (n : Nat) : String :=
  ⟨natCharsAux (n + 1) n []⟩

/-- `ImageUtilsService.getCacheKey` (private method):
`file.name + "-" + file.size + "-" + file.lastModified`. -/
def getCacheKey (f : JSFile) : String :=
  f.name ++ "-" ++ natStr f.size ++ "-" ++ natStr f.lastModified

theorem digitChar_ne_hyphen (n : Nat) : digitChar n ≠ '-' := by
  unfold digitChar
  split <;> decide

/-- Inverse digit value used to recover a number from its rendering. -/
def charVal (c : Char) : Nat :=
  if c = '0' then 0 else if c = '1' then 1 else if c = '2' then 2
  else if c = '3' then 3 else if c = '4' then 4 else if c = '5' then 5
  else if c = '6' then 6 else if c = '7' then 7 else if c = '8' then 8 else 9

theorem charVal_digitChar {n : Nat} (h : n < 10) : charVal (digitChar n) = n := by
  interval_cases n <;> decide

def listVal (l : List Char) : Nat :=
  l.foldl (fun a c => 10 * a + charVal c) 0

theorem mem_natCharsAux (fuel n : Nat) (acc : List Char) (c : Char)
    (hc : c ∈ natCharsAux fuel n acc) : c ∈ acc ∨ ∃ d, c = digitChar d := by
  induction fuel generalizing n acc with
  | zero => exact Or.inl hc
  | succ fuel ih =>
    simp only [natCharsAux] at hc
    by_cases h : n < 10
    · rw [if_pos h] at hc
      rcases List.mem_cons.mp hc with h' | h'
      · exact Or.inr ⟨n, h'⟩
      · exact Or.inl h'
    · rw [if_neg h] at hc
      rcases ih (n / 10) (digitChar (n % 10) :: acc) hc with h' | h'
      · rcases List.mem_cons.mp h' with h'' | h''
        · exact Or.inr ⟨n % 10, h''⟩
        · exact Or.inl h''
      · exact Or.inr h'

theorem hyphen_not_mem_natStr (n : Nat) : '-' ∉ (natStr n).data := by
  intro hmem
  rcases mem_natCharsAux (n + 1) n [] '-' hmem with h | ⟨d, hd⟩
  · exact List.not_mem_nil _ h
  · exact digitChar_ne_hyphen d hd.symm

theorem natCharsAux_acc (fuel : Nat) : ∀ (n : Nat) (acc : List Char),
    natCharsAux fuel n acc = natCharsAux fuel n [] ++ acc := by
  induction fuel with
  | zero => intro n acc; simp [natCharsAux]
  | succ fuel ih =>
    intro n acc
    by_cases h : n < 10
    · simp [natCharsAux, h]
    · simp only [natCharsAux, if_neg h]
      rw [ih (n / 10) (digitChar (n % 10) :: acc), ih (n / 10) [digitChar (n % 10)]]
      simp

theorem foldl_natCharsAux (fuel : Nat) : ∀ n a, n < fuel →
    List.foldl (fun a c => 10 * a + charVal c) a (natCharsAux fuel n []) =
      a * 10 ^ (natCharsAux fuel n []).length + n := by
  induction fuel with
  | zero => intro n a h; omega
  | succ fuel ih =>
    intro n a h
    by_cases h10 : n < 10
    · simp [natCharsAux, h10, charVal_digitChar h10]
      ring
    · simp only [natCharsAux, if_neg h10]
      rw [natCharsAux_acc fuel (n / 10) [digitChar (n % 10)]]
      have hdiv : n / 10 < fuel := by omega
      rw [List.foldl_append, ih (n / 10) a hdiv]
      have hmod : n % 10 < 10 := Nat.mod_lt _ (by omega)
      simp only [List.foldl_cons, List.foldl_nil, charVal_digitChar hmod,
        List.length_append, List.length_cons, List.length_nil]
      have : 10 * (n / 10) + n % 10 = n := Nat.div_add_mod n 10
      ring_nf
      omega

theorem listVal_natStr (n : Nat) : listVal (natStr n).data = n := by
  have h := foldl_natCharsAux (n + 1) n 0 (Nat.lt_succ_self n)
  simpa [listVal, natStr] using h

theorem natStr_injective {n m : Nat} (h : natStr n = natStr m) : n = m := by
  have : (natStr n).data = (natStr m).data := congrArg String.data h
  have := congrArg listVal this
  rwa [listVal_natStr, listVal_natStr] at this

theorem string_data_inj {s t : String} (h : s.data = t.data) : s = t := by
  cases s
  cases t
  exact congrArg String.mk h

theorem append_hyphen_right_cancel :
    ∀ (a b u v : List Char), '-' ∉ u → '-' ∉ v →
      a ++ '-' :: u = b ++ '-' :: v → a = b ∧ u = v := by
  intro a
  induction a with
  | nil =>
    intro b u v hu hv h
    cases b with
    | nil =>
      refine ⟨rfl, ?_⟩
      simpa using h
    | cons c b' =>
      simp only [List.nil_append, List.cons_append, List.cons.injEq] at h
      exact absurd (h.2 ▸ List.mem_append_right b' (List.mem_cons_self '-' v)) hu
  | cons c a' ih =>
    intro b u v hu hv h
    cases b with
    | nil =>
      simp only [List.cons_append, List.nil_append, List.cons.injEq] at h
      exact absurd (h.2 ▸ List.mem_append_right a' (List.mem_cons_self '-' u)) hv
    | cons d b' =>
      simp only [List.cons_append, List.cons.injEq] at h
      obtain ⟨h1, h2⟩ := ih b' u v hu hv h.2
      exact ⟨by rw [h.1, h1], h2⟩

theorem getCacheKey_inj {x y : JSFile} (h : getCacheKey x = getCacheKey y) :
    x.name = y.name ∧ x.size = y.size ∧ x.lastModified = y.lastModified := by
  have hx : (getCacheKey x).data =
      (x.name.data ++ '-' :: (natStr x.size).data) ++
        '-' :: (natStr x.lastModified).data := by
    simp [getCacheKey, String.data_append]
  have hy : (getCacheKey y).data =
      (y.name.data ++ '-' :: (natStr y.size).data) ++
        '-' :: (natStr y.lastModified).data := by
    simp [getCacheKey, String.data_append]
  have hdata := congrArg String.data h
  rw [hx, hy] at hdata
  obtain ⟨h1, h2⟩ := append_hyphen_right_cancel _ _ _ _
    (hyphen_not_mem_natStr x.lastModified) (hyphen_not_mem_natStr y.lastModified) hdata
  obtain ⟨h3, h4⟩ := append_hyphen_right_cancel _ _ _ _
    (hyphen_not_mem_natStr x.size) (hyphen_not_mem_natStr y.size) h1
  refine ⟨string_data_inj h3, ?_, ?_⟩
  · exact natStr_injective (string_data_inj h4)
  · exact natStr_injective (string_data_inj h2)

/-- C5 — cache-key derivation: `getCacheKey` is a function of exactly the
triple (name, size, lastModified): equal triples give equal keys, and any
difference in name, byte size or modification timestamp gives different keys
(the decimal renderings of the two numeric fields contain no `'-'`, so the
hyphen-joined encoding is unambiguous even for names containing hyphens). -/
theorem claim_C5_cache_key_separation (x y : JSFile) :
    (x.name = y.name ∧ x.size = y.size ∧ x.lastModified = y.lastModified →
      getCacheKey x = getCacheKey y) ∧
    (¬ (x.name = y.name ∧ x.size = y.size ∧ x.lastModified = y.lastModified) →
      getCacheKey x ≠ getCacheKey y) := by
  constructor
  · rintro ⟨h1, h2, h3⟩
    simp [getCacheKey, h1, h2, h3]
  · intro hne hkey
    exact hne (getCacheKey_inj hkey)

/-- Witness for C5: two files equal on the key triple (differing only in
MIME type) share a key; a hyphen-laden name does not collide with a shorter
name even though the numeric suffixes line up textually. -/
theorem claim_C5_witness :
    getCacheKey ⟨"a", 7, 9, "image/png"⟩ = getCacheKey ⟨"a", 7, 9, "image/jpeg"⟩ ∧
    getCacheKey ⟨"a-1", 2, 3, "image/png"⟩ ≠ getCacheKey ⟨"a", 1, 2, "image/png"⟩ := by
  constructor
  · exact (claim_C5_cache_key_separation ⟨"a", 7, 9, "image/png"⟩
      ⟨"a", 7, 9, "image/jpeg"⟩).1 ⟨rfl, rfl, rfl⟩
  · exact (claim_C5_cache_key_separation ⟨"a-1", 2, 3, "image/png"⟩
      ⟨"a", 1, 2, "image/png"⟩).2 (by decide)

/-! ## ImageUtilsService analysis-cache layer (claims C6, C7, C10)

The four `LRUCache` fields and the cached analysis operations of
`image-utils.service.ts`.  The external browser collaborators are
parameters: `em` models `ImageHelpers.extractDimensionsFromMetadata`
(returns dimensions or `null`), `li` models the `Image`-element load
(resolves with dimensions or rejects), `aT`/`aC` model the canvas
draw + pixel scan of `hasTransparency` / `getDominantColor` (which
throw on canvas failure), and `fb` models `ImageHelpers.formatBytes`.
The `…ComputeCount` fields instrument how often each wrapped
computation runs (the call-count spy of the spec); they do not alter
control flow. -/

/-- Dimensions returned by `getImageDimensions`. -/
structure Dims where
  width : Nat
  height : Nat
deriving DecidableEq

/-- `ImageHelpers.calculateGCD`, the Euclidean algorithm. -/
def calculateGCD (a b : Nat) : Nat :=
  if h : b = 0 then a else calculateGCD b (a % b)
termination_by b
decreasing_by exact Nat.mod_lt _ (Nat.pos_of_ne_zero h)

/-- JS `String.prototype.includes`. -/
def stringIncludes (s sub : String) : Bool :=
  decide (List.IsInfix sub.data s.data)

/-- `ImageHelpers.detectImageFormat`: substring checks on the MIME type. -/
def detectImageFormat (mimeType : String) : String :=
  if stringIncludes mimeType "avif" then "avif"
  else if stringIncludes mimeType "webp" then "webp"
  else if stringIncludes mimeType "png" then "png"
  else "jpeg"

/-- The `ImageInfo` record built by `getImageInfo`.  `aspectRatio` is the
JS number `width / height`, modelled as the exact rational. -/
structure ImageInfo where
  name : String
  size : Nat
  formattedSize : String
  format : String
  width : Nat
  height : Nat
  aspectRatio : Rat
  aspectRatioString : String
deriving DecidableEq

/-- The mutable state of an `ImageUtilsService` instance: the four
independently sized caches, plus instrumentation counters for the wrapped
computations. -/
structure UtilsState where
  dimensionsCache : LRUCache String Dims
  infoCache : LRUCache String ImageInfo
  transparencyCache : LRUCache String Bool
  dominantColorCache : LRUCache String String
  dimComputeCount : Nat
  transparencyComputeCount : Nat
  dominantColorComputeCount : Nat

/-- Fresh service state: capacities 100 / 50 / 100 / 50 as in the
`…_CACHE_SIZE` constants. -/
def initialUtilsState : UtilsState where
  dimensionsCache := LRUCache.empty 100
  infoCache := LRUCache.empty 50
  transparencyCache := LRUCache.empty 100
  dominantColorCache := LRUCache.empty 50
  dimComputeCount := 0
  transparencyComputeCount := 0
  dominantColorComputeCount := 0

/-- `MAX_SAFE_SIZE_MB * 1024 * 1024`. -/
def maxSafeBytes : Nat := 50 * 1024 * 1024

/-- `ImageUtilsService.getImageDimensions`: cache check (`if (cached)` — a
dimensions object is always truthy), then metadata fast path, then size
guard, then image load; successful results are stored, failures are not. -/
def getImageDimensions (em : JSFile → Option Dims) (li : JSFile → Except String Dims)
    (f : JSFile) (s : UtilsState) : Except String Dims × UtilsState :=
  match s.dimensionsCache.get (getCacheKey f) with
  | (some cached, dc) => (.ok cached, { s with dimensionsCache := dc })
  | (none, _) =>
    -- on a miss `LRUCache.get` leaves the map untouched, so the state's
    -- dimensions cache is still `s.dimensionsCache` here
    let s₁ := { s with dimComputeCount := s.dimComputeCount + 1 }
    match em f with
    | some metadataDims =>
      (.ok metadataDims,
        { s₁ with dimensionsCache := s₁.dimensionsCache.set (getCacheKey f) metadataDims })
    | none =>
      if f.size > maxSafeBytes then
        (.error "Image too large", s₁)
      else
        match li f with
        | .ok result =>
          (.ok result,
            { s₁ with dimensionsCache := s₁.dimensionsCache.set (getCacheKey f) result })
        | .error e => (.error e, s₁)

/-- The `const result: ImageInfo = { … }` record built inside
`getImageInfo` from the probed dimensions. -/
def buildImageInfo (fb : Nat → String) (f : JSFile) (dims : Dims) : ImageInfo :=
  let g := calculateGCD dims.width dims.height
  { name := f.name
    size := f.size
    formattedSize := fb f.size
    format := detectImageFormat f.type
    width := dims.width
    height := dims.height
    aspectRatio := (dims.width : Rat) / (dims.height : Rat)
    aspectRatioString := natStr (dims.width / g) ++ ":" ++ natStr (dims.height / g) }

/-- `ImageUtilsService.getImageInfo`: cache check, then `getImageDimensions`
(whose rejection propagates), then the derived record is built and stored. -/
def getImageInfo (em : JSFile → Option Dims) (li : JSFile → Except String Dims)
    (fb : Nat → String) (f : JSFile) (s : UtilsState) : Except String ImageInfo × UtilsState :=
  match s.infoCache.get (getCacheKey f) with
  | (some cached, ic) => (.ok cached, { s with infoCache := ic })
  | (none, _) =>
    -- miss: the info cache is untouched, proceed on `s`
    match getImageDimensions em li f s with
    | (.error e, s₂) => (.error e, s₂)
    | (.ok dims, s₂) =>
      let result := buildImageInfo fb f dims
      (.ok result, { s₂ with infoCache := s₂.infoCache.set (getCacheKey f) result })

/-- `ImageUtilsService.hasTransparency`: JPEG short-circuits to `false`
before any cache access; otherwise cache check (`cached !== undefined`),
then dimensions + pixel analysis inside `try`, with `catch` returning the
safe default `false` without caching it. -/
def hasTransparency (em : JSFile → Option Dims) (li : JSFile → Except String Dims)
    (aT : JSFile → Dims → Except String Bool) (f : JSFile) (s : UtilsState) :
    Bool × UtilsState :=
  if f.type = "image/jpeg" then (false, s)
  else
    match s.transparencyCache.get (getCacheKey f) with
    | (some cached, tc) => (cached, { s with transparencyCache := tc })
    | (none, _) =>
      -- miss: the transparency cache is untouched, proceed on `s`
      match getImageDimensions em li f s with
      | (.error _, s₂) => (false, s₂)
      | (.ok dims, s₂) =>
        let s₃ := { s₂ with transparencyComputeCount := s₂.transparencyComputeCount + 1 }
        match aT f dims with
        | .ok result =>
          (result, { s₃ with transparencyCache := s₃.transparencyCache.set (getCacheKey f) result })
        | .error _ => (false, s₃)

/-- `ImageUtilsService.getDominantColor`: cache check (`if (cached)` — the
empty string is falsy and falls through to recomputation), then dimensions +
pixel analysis inside `try`, with `catch` returning the safe default
`"#000000"` without caching it. -/
def getDominantColor (em : JSFile → Option Dims) (li : JSFile → Except String Dims)
    (aC : JSFile → Dims → Except String String) (f : JSFile) (s : UtilsState) :
    String × UtilsState :=
  let compute : UtilsState → String × UtilsState := fun s₁ =>
    match getImageDimensions em li f s₁ with
    | (.error _, s₂) => ("#000000", s₂)
    | (.ok dims, s₂) =>
      let s₃ := { s₂ with dominantColorComputeCount := s₂.dominantColorComputeCount + 1 }
      match aC f dims with
      | .ok hex =>
        (hex, { s₃ with dominantColorCache := s₃.dominantColorCache.set (getCacheKey f) hex })
      | .error _ => ("#000000", s₃)
  match s.dominantColorCache.get (getCacheKey f) with
  | (some cached, cc) =>
    if cached = "" then compute { s with dominantColorCache := cc }
    else (cached, { s with dominantColorCache := cc })
  | (none, _) =>
    -- miss: the dominant-color cache is untouched, proceed on `s`
    compute s

/-- The record returned by `ImageUtilsService.getCacheStats`. -/
structure CacheStats where
  dimensions : Nat
  info : Nat
  transparency : Nat
  dominantColor : Nat
deriving DecidableEq

/-- `ImageUtilsService.getCacheStats`: the four cache sizes. -/
def getCacheStats (s : UtilsState) : CacheStats where
  dimensions := s.dimensionsCache.size
  info := s.infoCache.size
  transparency := s.transparencyCache.size
  dominantColor := s.dominantColorCache.size

/-! ## Cache-layer lemmas -/

theorem LRUCache.get_hit {c : LRUCache K V} {k : K} {v : V}
    (h : mapGet c.cache k = some v) :
    c.get k = (some v, { c with cache := mapSet (mapDelete c.cache k) k v }) := by
  simp [LRUCache.get, h]

theorem LRUCache.get_miss {c : LRUCache K V} {k : K}
    (h : mapGet c.cache k = none) :
    c.get k = (none, c) := by
  simp [LRUCache.get, h]

/-- `getImageDimensions` touches only the dimensions cache and its counter. -/
theorem getImageDimensions_frame (em : JSFile → Option Dims)
    (li : JSFile → Except String Dims) (f : JSFile) (s : UtilsState) :
    (getImageDimensions em li f s).2.infoCache = s.infoCache ∧
    (getImageDimensions em li f s).2.transparencyCache = s.transparencyCache ∧
    (getImageDimensions em li f s).2.dominantColorCache = s.dominantColorCache ∧
    (getImageDimensions em li f s).2.transparencyComputeCount = s.transparencyComputeCount ∧
    (getImageDimensions em li f s).2.dominantColorComputeCount = s.dominantColorComputeCount := by
  rcases hmg : mapGet s.dimensionsCache.cache (getCacheKey f) with _ | d
  · simp only [getImageDimensions, LRUCache.get_miss hmg]
    cases em f
    · by_cases hsz : f.size > maxSafeBytes
      · simp [hsz]
      · simp only [if_neg hsz]
        cases li f <;> simp
    · simp
  · simp [getImageDimensions, LRUCache.get_hit hmg]

/-- A dimensions-cache hit: the cached value is returned, the entry is
promoted (and so stays present), and no computation is invoked. -/
theorem getImageDimensions_hit {em : JSFile → Option Dims}
    {li : JSFile → Except String Dims} {f : JSFile} {s : UtilsState} {d : Dims}
    (h : mapGet s.dimensionsCache.cache (getCacheKey f) = some d) :
    getImageDimensions em li f s =
      (.ok d,
        { s with dimensionsCache :=
            { s.dimensionsCache with
              cache := mapSet (mapDelete s.dimensionsCache.cache (getCacheKey f)) (getCacheKey f) d } }) := by
  simp [getImageDimensions, LRUCache.get_hit h]

/-- A dimensions-cache miss whose computation succeeds stores the result and
counts exactly one invocation of the wrapped computation. -/
theorem getImageDimensions_miss_store {em : JSFile → Option Dims}
    {li : JSFile → Except String Dims} {f : JSFile} {s : UtilsState} {d : Dims}
    (h : mapGet s.dimensionsCache.cache (getCacheKey f) = none)
    (hok : (getImageDimensions em li f s).1 = .ok d) :
    mapGet (getImageDimensions em li f s).2.dimensionsCache.cache (getCacheKey f) = some d ∧
    (getImageDimensions em li f s).2.dimComputeCount = s.dimComputeCount + 1 := by
  simp only [getImageDimensions, LRUCache.get_miss h] at hok ⊢
  cases hem : em f with
  | some m =>
    simp only [hem] at hok ⊢
    cases hok
    exact ⟨mapGet_mapSet_self _ _ _, trivial⟩
  | none =>
    simp only [hem] at hok ⊢
    by_cases hsz : f.size > maxSafeBytes
    · simp [hsz] at hok
    · simp only [if_neg hsz] at hok ⊢
      cases hli : li f with
      | ok r =>
        simp only [hli] at hok ⊢
        cases hok
        exact ⟨mapGet_mapSet_self _ _ _, trivial⟩
      | error e => simp [hli] at hok

/-- An info-cache hit: the cached record is returned, stays present, and no
dimension computation is invoked. -/
theorem getImageInfo_hit {em : JSFile → Option Dims}
    {li : JSFile → Except String Dims} {fb : Nat → String} {f : JSFile}
    {s : UtilsState} {i : ImageInfo}
    (h : mapGet s.infoCache.cache (getCacheKey f) = some i) :
    getImageInfo em li fb f s =
      (.ok i,
        { s with infoCache :=
            { s.infoCache with
              cache := mapSet (mapDelete s.infoCache.cache (getCacheKey f)) (getCacheKey f) i } }) := by
  simp [getImageInfo, LRUCache.get_hit h]

/-- Iterating a state transformer, modelling `n` repeated calls. -/
def iterateState (step : UtilsState → UtilsState) : Nat → UtilsState → UtilsState
  | 0, s => s
  | n + 1, s => iterateState step n (step s)

/-- The post-call state of one `getImageDimensions` invocation. -/
def dimsStep (em : JSFile → Option Dims) (li : JSFile → Except String Dims)
    (f : JSFile) (s : UtilsState) : UtilsState :=
  (getImageDimensions em li f s).2

/-- The post-call state of one `getImageInfo` invocation. -/
def infoStep (em : JSFile → Option Dims) (li : JSFile → Except String Dims)
    (fb : Nat → String) (f : JSFile) (s : UtilsState) : UtilsState :=
  (getImageInfo em li fb f s).2

theorem iterate_dims_hit (em : JSFile → Option Dims) (li : JSFile → Except String Dims)
    (f : JSFile) (d : Dims) : ∀ (n : Nat) (s : UtilsState),
    mapGet s.dimensionsCache.cache (getCacheKey f) = some d →
    mapGet (iterateState (dimsStep em li f) n s).dimensionsCache.cache (getCacheKey f) = some d ∧
    (iterateState (dimsStep em li f) n s).dimComputeCount = s.dimComputeCount ∧
    (getImageDimensions em li f (iterateState (dimsStep em li f) n s)).1 = .ok d := by
  intro n
  induction n with
  | zero =>
    intro s h
    exact ⟨h, rfl, by simp [iterateState, getImageDimensions_hit h]⟩
  | succ n ih =>
    intro s h
    have hstep : mapGet (dimsStep em li f s).dimensionsCache.cache (getCacheKey f) = some d := by
      simp only [dimsStep, getImageDimensions_hit h]
      exact mapGet_mapSet_self _ _ _
    have hcnt : (dimsStep em li f s).dimComputeCount = s.dimComputeCount := by
      simp [dimsStep, getImageDimensions_hit h]
    obtain ⟨h1, h2, h3⟩ := ih (dimsStep em li f s) hstep
    refine ⟨h1, ?_, ?_⟩
    · rw [iterateState, h2, hcnt]
    · rw [iterateState]
      exact h3

theorem iterate_info_hit (em : JSFile → Option Dims) (li : JSFile → Except String Dims)
    (fb : Nat → String) (f : JSFile) (i : ImageInfo) : ∀ (n : Nat) (s : UtilsState),
    mapGet s.infoCache.cache (getCacheKey f) = some i →
    mapGet (iterateState (infoStep em li fb f) n s).infoCache.cache (getCacheKey f) = some i ∧
    (iterateState (infoStep em li fb f) n s).dimComputeCount = s.dimComputeCount ∧
    (getImageInfo em li fb f (iterateState (infoStep em li fb f) n s)).1 = .ok i := by
  intro n
  induction n with
  | zero =>
    intro s h
    exact ⟨h, rfl, by simp [iterateState, getImageInfo_hit h]⟩
  | succ n ih =>
    intro s h
    have hstep : mapGet (infoStep em li fb f s).infoCache.cache (getCacheKey f) = some i := by
      simp only [infoStep, getImageInfo_hit h]
      exact mapGet_mapSet_self _ _ _
    have hcnt : (infoStep em li fb f s).dimComputeCount = s.dimComputeCount := by
      simp [infoStep, getImageInfo_hit h]
    obtain ⟨h1, h2, h3⟩ := ih (infoStep em li fb f s) hstep
    refine ⟨h1, ?_, ?_⟩
    · rw [iterateState, h2, hcnt]
    · rw [iterateState]
      exact h3

/-- C6 — memoization: once a dimensions (resp. full-info) result has been
stored under a key, every later call on a file deriving the same untouched
key returns the stored value and leaves the dimension-computation counter
unchanged (for any number `n` of repeated calls), while a cache miss whose
computation succeeds stores the result and counts exactly one invocation of
the wrapped computation — so N repeated calls on the same untouched key
perform exactly one invocation. -/
theorem claim_C6_memoization (em : JSFile → Option Dims) (li : JSFile → Except String Dims)
    (fb : Nat → String) (f : JSFile) (s : UtilsState) (d : Dims) (i : ImageInfo) (n : Nat) :
    (mapGet s.dimensionsCache.cache (getCacheKey f) = some d →
      (getImageDimensions em li f (iterateState (dimsStep em li f) n s)).1 = .ok d ∧
      (iterateState (dimsStep em li f) n s).dimComputeCount = s.dimComputeCount) ∧
    (mapGet s.dimensionsCache.cache (getCacheKey f) = none →
      (getImageDimensions em li f s).1 = .ok d →
      mapGet (getImageDimensions em li f s).2.dimensionsCache.cache (getCacheKey f) = some d ∧
      (getImageDimensions em li f s).2.dimComputeCount = s.dimComputeCount + 1) ∧
    (mapGet s.infoCache.cache (getCacheKey f) = some i →
      (getImageInfo em li fb f (iterateState (infoStep em li fb f) n s)).1 = .ok i ∧
      (iterateState (infoStep em li fb f) n s).dimComputeCount = s.dimComputeCount) ∧
    (mapGet s.infoCache.cache (getCacheKey f) = none →
      (getImageInfo em li fb f s).1 = .ok i →
      mapGet (getImageInfo em li fb f s).2.infoCache.cache (getCacheKey f) = some i) := by
  refine ⟨fun h => ?_, fun h hok => getImageDimensions_miss_store h hok,
    fun h => ?_, fun h hok => ?_⟩
  · obtain ⟨_, h2, h3⟩ := iterate_dims_hit em li f d n s h
    exact ⟨h3, h2⟩
  · obtain ⟨_, h2, h3⟩ := iterate_info_hit em li fb f i n s h
    exact ⟨h3, h2⟩
  · simp only [getImageInfo, LRUCache.get_miss h] at hok ⊢
    rcases hd : getImageDimensions em li f s with ⟨r, s₂⟩
    rw [hd] at hok
    cases r with
    | error e => simp at hok
    | ok dims =>
      have hok' : buildImageInfo fb f dims = i := by simpa using hok
      simp [LRUCache.set, mapGet_mapSet_self, hok']

/-- Concrete metadata extractor for the C6 witness scenario. -/
def c6em : JSFile → Option Dims := fun _ => some ⟨8, 6⟩

/-- Concrete image loader for the C6 witness scenario (never reached,
since metadata extraction succeeds). -/
def c6li : JSFile → Except String Dims := fun _ => .error "decode"

/-- Concrete byte formatter for the C6 witness scenario. -/
def c6fb : Nat → String := fun _ => "4 Bytes"

/-- Concrete file for the C6 witness scenario. -/
def c6file : JSFile := ⟨"a", 4, 5, "image/png"⟩

/-- State after one `getImageDimensions` call on the fresh service. -/
def c6s1 : UtilsState := (getImageDimensions c6em c6li c6file initialUtilsState).2

/-- State after one `getImageInfo` call on the fresh service. -/
def c6s2 : UtilsState := (getImageInfo c6em c6li c6fb c6file initialUtilsState).2

/-- The info record the C6 scenario computes and stores. -/
def c6info : ImageInfo := buildImageInfo c6fb c6file ⟨8, 6⟩

/-- Witness for C6: after one computing call, three further
`getImageDimensions` (resp. `getImageInfo`) calls on the same file return
the stored value without any additional invocation of the wrapped
computation; the very first call stores the result and counts exactly one
invocation. -/
theorem claim_C6_witness :
    ((getImageDimensions c6em c6li c6file (iterateState (dimsStep c6em c6li c6file) 3 c6s1)).1 =
        .ok ⟨8, 6⟩ ∧
      (iterateState (dimsStep c6em c6li c6file) 3 c6s1).dimComputeCount = c6s1.dimComputeCount) ∧
    (mapGet (getImageDimensions c6em c6li c6file initialUtilsState).2.dimensionsCache.cache
        (getCacheKey c6file) = some ⟨8, 6⟩ ∧
      (getImageDimensions c6em c6li c6file initialUtilsState).2.dimComputeCount =
        initialUtilsState.dimComputeCount + 1) ∧
    ((getImageInfo c6em c6li c6fb c6file (iterateState (infoStep c6em c6li c6fb c6file) 3 c6s2)).1 =
        .ok c6info ∧
      (iterateState (infoStep c6em c6li c6fb c6file) 3 c6s2).dimComputeCount =
        c6s2.dimComputeCount) ∧
    mapGet (getImageInfo c6em c6li c6fb c6file initialUtilsState).2.infoCache.cache
      (getCacheKey c6file) = some c6info := by
  refine ⟨?_, ?_, ?_, ?_⟩
  · exact (claim_C6_memoization c6em c6li c6fb c6file c6s1 ⟨8, 6⟩ c6info 3).1 rfl
  · exact (claim_C6_memoization c6em c6li c6fb c6file initialUtilsState ⟨8, 6⟩ c6info 3).2.1
      rfl rfl
  · exact (claim_C6_memoization c6em c6li c6fb c6file c6s2 ⟨8, 6⟩ c6info 3).2.2.1 rfl
  · exact (claim_C6_memoization c6em c6li c6fb c6file initialUtilsState ⟨8, 6⟩ c6info 3).2.2.2
      rfl rfl

/-- C7 — failure semantics of the cached analyses: when the underlying
computation throws, the corresponding cache is not populated, and the
outcome follows each operation's own contract — `getImageDimensions`
propagates the rejection to the caller (dimensions cache unchanged), while
`hasTransparency` returns the safe default `false` and `getDominantColor`
returns `"#000000"`, in both fallback cases without storing the fallback in
the corresponding cache. -/
theorem claim_C7_failure_not_cached (em : JSFile → Option Dims)
    (li : JSFile → Except String Dims) (aT : JSFile → Dims → Except String Bool)
    (aC : JSFile → Dims → Except String String) (f : JSFile) (s : UtilsState)
    (e : String) (dims : Dims) :
    (mapGet s.dimensionsCache.cache (getCacheKey f) = none → em f = none →
      f.size ≤ maxSafeBytes → li f = .error e →
      (getImageDimensions em li f s).1 = .error e ∧
      (getImageDimensions em li f s).2.dimensionsCache = s.dimensionsCache) ∧
    (f.type ≠ "image/jpeg" → mapGet s.transparencyCache.cache (getCacheKey f) = none →
      (getImageDimensions em li f s).1 = .error e →
      (hasTransparency em li aT f s).1 = false ∧
      (hasTransparency em li aT f s).2.transparencyCache = s.transparencyCache) ∧
    (f.type ≠ "image/jpeg" → mapGet s.transparencyCache.cache (getCacheKey f) = none →
      (getImageDimensions em li f s).1 = .ok dims → aT f dims = .error e →
      (hasTransparency em li aT f s).1 = false ∧
      (hasTransparency em li aT f s).2.transparencyCache = s.transparencyCache) ∧
    (mapGet s.dominantColorCache.cache (getCacheKey f) = none →
      (getImageDimensions em li f s).1 = .error e →
      (getDominantColor em li aC f s).1 = "#000000" ∧
      (getDominantColor em li aC f s).2.dominantColorCache = s.dominantColorCache) ∧
    (mapGet s.dominantColorCache.cache (getCacheKey f) = none →
      (getImageDimensions em li f s).1 = .ok dims → aC f dims = .error e →
      (getDominantColor em li aC f s).1 = "#000000" ∧
      (getDominantColor em li aC f s).2.dominantColorCache = s.dominantColorCache) := by
  refine ⟨fun hmiss hem hsz hli => ?_, fun hjpeg htc herr => ?_,
    fun hjpeg htc hok haT => ?_, fun hcc herr => ?_, fun hcc hok haC => ?_⟩
  · simp [getImageDimensions, LRUCache.get_miss hmiss, hem, Nat.not_lt.mpr hsz, hli,
      not_lt_of_ge hsz]
  · have hfr := (getImageDimensions_frame em li f s).2.1
    rcases hd : getImageDimensions em li f s with ⟨r, s₂⟩
    rw [hd] at herr hfr
    simp only at herr hfr
    subst herr
    simp [hasTransparency, if_neg hjpeg, LRUCache.get_miss htc, hd, hfr]
  · have hfr := (getImageDimensions_frame em li f s).2.1
    rcases hd : getImageDimensions em li f s with ⟨r, s₂⟩
    rw [hd] at hok hfr
    simp only at hok hfr
    subst hok
    simp [hasTransparency, if_neg hjpeg, LRUCache.get_miss htc, hd, haT, hfr]
  · have hfr := (getImageDimensions_frame em li f s).2.2.1
    rcases hd : getImageDimensions em li f s with ⟨r, s₂⟩
    rw [hd] at herr hfr
    simp only at herr hfr
    subst herr
    simp [getDominantColor, LRUCache.get_miss hcc, hd, hfr]
  · have hfr := (getImageDimensions_frame em li f s).2.2.1
    rcases hd : getImageDimensions em li f s with ⟨r, s₂⟩
    rw [hd] at hok hfr
    simp only at hok hfr
    subst hok
    simp [getDominantColor, LRUCache.get_miss hcc, hd, haC, hfr]

/-- Metadata extractor that fails for the C7 witness scenario. -/
def c7em : JSFile → Option Dims := fun _ => none

/-- Image loader that rejects for the C7 witness scenario. -/
def c7li : JSFile → Except String Dims := fun _ => .error "load failed"

/-- Transparency pixel analysis that throws for the C7 witness scenario. -/
def c7aT : JSFile → Dims → Except String Bool := fun _ _ => .error "canvas"

/-- Dominant-color pixel analysis that throws for the C7 witness scenario. -/
def c7aC : JSFile → Dims → Except String String := fun _ _ => .error "canvas"

/-- Concrete file for the C7 witness scenario. -/
def c7file : JSFile := ⟨"b", 3, 1, "image/png"⟩

/-- Metadata extractor that succeeds (so only the pixel analysis fails)
for the C7 witness scenario. -/
def c7em2 : JSFile → Option Dims := fun _ => some ⟨2, 2⟩

/-- Witness for C7 on a fresh service: a failed dimension probe propagates
and leaves the dimensions cache empty; failed transparency / dominant-color
analyses (whether the probe or the pixel pass fails) fall back to `false` /
`"#000000"` without populating their caches. -/
theorem claim_C7_witness :
    ((getImageDimensions c7em c7li c7file initialUtilsState).1 = .error "load failed" ∧
      (getImageDimensions c7em c7li c7file initialUtilsState).2.dimensionsCache =
        initialUtilsState.dimensionsCache) ∧
    ((hasTransparency c7em c7li c7aT c7file initialUtilsState).1 = false ∧
      (hasTransparency c7em c7li c7aT c7file initialUtilsState).2.transparencyCache =
        initialUtilsState.transparencyCache) ∧
    ((hasTransparency c7em2 c7li c7aT c7file initialUtilsState).1 = false ∧
      (hasTransparency c7em2 c7li c7aT c7file initialUtilsState).2.transparencyCache =
        initialUtilsState.transparencyCache) ∧
    ((getDominantColor c7em c7li c7aC c7file initialUtilsState).1 = "#000000" ∧
      (getDominantColor c7em c7li c7aC c7file initialUtilsState).2.dominantColorCache =
        initialUtilsState.dominantColorCache) ∧
    ((getDominantColor c7em2 c7li c7aC c7file initialUtilsState).1 = "#000000" ∧
      (getDominantColor c7em2 c7li c7aC c7file initialUtilsState).2.dominantColorCache =
        initialUtilsState.dominantColorCache) := by
  have hA := claim_C7_failure_not_cached c7em c7li c7aT c7aC c7file initialUtilsState
    "load failed" ⟨2, 2⟩
  have hB := claim_C7_failure_not_cached c7em2 c7li c7aT c7aC c7file initialUtilsState
    "canvas" ⟨2, 2⟩
  refine ⟨hA.1 rfl rfl (by decide) rfl, hA.2.1 (by decide) rfl rfl, ?_, hA.2.2.2.1 rfl rfl, ?_⟩
  · exact hB.2.2.1 (by decide) rfl rfl rfl
  · exact hB.2.2.2.2 rfl rfl rfl

/-- C10 — JPEG short-circuit: for a file whose MIME type is `image/jpeg`,
`hasTransparency` returns `false` immediately with the service state fully
unchanged (no cache read, write or promotion in any of the four caches), so
the call is never reflected in `getCacheStats`. -/
theorem claim_C10_jpeg_short_circuit (em : JSFile → Option Dims)
    (li : JSFile → Except String Dims) (aT : JSFile → Dims → Except String Bool)
    (f : JSFile) (s : UtilsState) (hjpeg : f.type = "image/jpeg") :
    hasTransparency em li aT f s = (false, s) ∧
    getCacheStats (hasTransparency em li aT f s).2 = getCacheStats s := by
  have h : hasTransparency em li aT f s = (false, s) := by
    simp [hasTransparency, hjpeg]
  exact ⟨h, by rw [h]⟩

/-- Witness for C10 at a concrete JPEG file: the whole state survives
unchanged, whatever the collaborators would have done. -/
theorem claim_C10_witness :
    hasTransparency (fun _ => none) (fun _ => .error "x") (fun _ _ => .error "y")
      ⟨"c", 2, 2, "image/jpeg"⟩ initialUtilsState = (false, initialUtilsState) ∧
    getCacheStats (hasTransparency (fun _ => none) (fun _ => .error "x")
      (fun _ _ => .error "y") ⟨"c", 2, 2, "image/jpeg"⟩ initialUtilsState).2 =
      getCacheStats initialUtilsState :=
  claim_C10_jpeg_short_circuit (fun _ => none) (fun _ => .error "x") (fun _ _ => .error "y")
    ⟨"c", 2, 2, "image/jpeg"⟩ initialUtilsState rfl

/-! ## ImageConverterService batch pipeline (claims C2, C3, C8, C9)

Embedding of `media-optimizer.service.ts`.  The state is the pair of the
`_imagesMap` JS `Map` and the `_imageOrder` array, plus an instrumentation
log of `URL.revokeObjectURL` calls (`revokedUrls`).  The external
compression library call `imageCompression(file, options)` is a parameter
`compress`, indexed by dispatch position and yielding either the
compressed file (with the blob URL `URL.createObjectURL` would mint for
it) or a rejection.  The batch drain is modelled for the fully serial
schedule (`concurrency = 1` in `mergeMap`), where the single-threaded
event-loop semantics of the RxJS pipeline are deterministic; `abortAt k`
means `abortProcessing()` ran after the `k`-th item settled, so the
`signal.aborted` check in the `mergeMap` project function reads `true`
from dispatch index `k` on. -/

/-- `ImageProcessingStatus`. -/
inductive ImageStatus where
  | pending
  | processing
  | completed
  | error
deriving DecidableEq

/-- The `ImageFile` record of `media-optimizer.service.ts`. -/
structure ImageFile where
  id : String
  name : String
  originalSize : Nat
  compressedSize : Nat
  originalUrl : String
  compressedUrl : String
  status : ImageStatus
  quality : Nat
deriving DecidableEq

/-- Result of a successful external compression: the produced file's size
and the blob URL created for it. -/
structure CompressedFile where
  size : Nat
  url : String
deriving DecidableEq

/-- Service state: `_imagesMap`, `_imageOrder`, and the log of
`URL.revokeObjectURL` invocations (instrumentation for resource release). -/
structure SvcState where
  imagesMap : List (String × ImageFile)
  imageOrder : List String
  revokedUrls : List String
deriving DecidableEq

/-- Fresh service state. -/
def emptySvcState : SvcState := ⟨[], [], []⟩

/-- The `images` getter: `_imageOrder.map(id => _imagesMap.get(id)).filter(defined)`. -/
def SvcState.images (st : SvcState) : List ImageFile :=
  st.imageOrder.filterMap (fun id => mapGet st.imagesMap id)

/-- `revokeImageUrls`: revoke the original and compressed blob URLs when
non-empty (each revocation appended to the instrumentation log). -/
def revokeImageUrls (image : ImageFile) (st : SvcState) : SvcState :=
  let st₁ :=
    if image.originalUrl ≠ "" then
      { st with revokedUrls := st.revokedUrls ++ [image.originalUrl] }
    else st
  if image.compressedUrl ≠ "" then
    { st₁ with revokedUrls := st₁.revokedUrls ++ [image.compressedUrl] }
  else st₁

/-- `removeImage`: look up the id; if present, revoke its URLs first, then
delete it from the map and excise it from the order array; absent ids are a
no-op. -/
def removeImage (id : String) (st : SvcState) : SvcState :=
  match mapGet st.imagesMap id with
  | none => st
  | some imageToRemove =>
    let st₁ := revokeImageUrls imageToRemove st
    { st₁ with
      imagesMap := mapDelete st₁.imagesMap id
      imageOrder := st₁.imageOrder.filter (fun imgId => imgId != id) }

/-- `updateImageStatus`: replace the record with the new status (no-op when
the id is absent). -/
def updateImageStatus (id : String) (status : ImageStatus) (st : SvcState) : SvcState :=
  match mapGet st.imagesMap id with
  | none => st
  | some existing =>
    { st with imagesMap := mapSet st.imagesMap id { existing with status := status } }

/-- `updateImageOnSuccess`: fill in the compressed size and blob URL and
mark the record `completed`. -/
def updateImageOnSuccess (id : String) (cf : CompressedFile) (st : SvcState) : SvcState :=
  match mapGet st.imagesMap id with
  | none => st
  | some existing =>
    let updated : ImageFile :=
      { existing with compressedSize := cf.size, compressedUrl := cf.url, status := .completed }
    { st with imagesMap := mapSet st.imagesMap id updated }

/-- `processImage`: set the record to `processing`, run the external
compression; on rejection mark the record `error` and re-throw (the error
is returned to the pipeline). -/
def processImage (compress : Nat → Except String CompressedFile) (idx : Nat)
    (img : ImageFile) (st : SvcState) : Except String CompressedFile × SvcState :=
  let st₁ := updateImageStatus img.id .processing st
  match compress idx with
  | .ok cf => (.ok cf, st₁)
  | .error e => (.error e, updateImageStatus img.id .error st₁)

/-- Whether the abort signal reads `true` when dispatch index `i` is
checked (the abort fired after `k` items had settled). -/
def abortedAt (abortAt : Option Nat) (i : Nat) : Bool :=
  match abortAt with
  | some k => decide (k ≤ i)
  | none => false

/-- The serial (`concurrency = 1`) drain of
`from(imageFiles).pipe(mergeMap(…), tap(updateImageOnSuccess), catchError(handleProcessingError))`:
before dispatching each item the `signal.aborted` check runs (`throwError`
on an aborted signal); a worker rejection is re-thrown by
`handleProcessingError`, erroring the whole observable and dispatching
nothing further. -/
def drainSerial (compress : Nat → Except String CompressedFile) (abortAt : Option Nat) :
    Nat → List ImageFile → SvcState → Except String Unit × SvcState
  | _, [], st => (.ok (), st)
  | i, img :: rest, st =>
    if abortedAt abortAt i then
      (.error "Operation aborted", st)
    else
      match processImage compress i img st with
      | (.error e, st₁) => (.error e, st₁)
      | (.ok cf, st₁) =>
        drainSerial compress abortAt (i + 1) rest (updateImageOnSuccess img.id cf st₁)

/-- `VALID_MIME_TYPES`. -/
def VALID_MIME_TYPES : List String :=
  ["image/jpeg", "image/png", "image/webp", "image/gif", "image/avif"]

/-- `MAX_FILE_SIZE_MB`. -/
def MAX_FILE_SIZE_MB : Nat := 100

/-- `validateFiles`: first offending file's message, or `null`. -/
def validateFiles : List JSFile → Option String
  | [] => none
  | f :: rest =>
    if VALID_MIME_TYPES.contains f.type = false then
      some ("Invalid file type: " ++ f.type ++ ". File: " ++ f.name)
    else if f.size > MAX_FILE_SIZE_MB * 1024 * 1024 then
      some ("File too large: " ++ f.name)
    else if f.size = 0 then
      some ("File is empty: " ++ f.name)
    else validateFiles rest

/-- Stable insertion of a file into a size-sorted list (equal sizes keep
their relative order, as JS `Array.prototype.sort` is stable). -/
def insertBySize (f : JSFile) : List JSFile → List JSFile
  | [] => [f]
  | g :: rest => if g.size ≤ f.size then g :: insertBySize f rest else f :: g :: rest

/-- `ImageHelpers.optimizeBatchOrder`: stable sort ascending by `size`. -/
def optimizeBatchOrder : List JSFile → List JSFile
  | [] => []
  | f :: rest => insertBySize f (optimizeBatchOrder rest)

/-- Index (from the start) of the first occurrence of a character. -/
def firstIdx (c : Char) : List Char → Option Nat
  | [] => none
  | x :: t => if x = c then some 0 else (firstIdx c t).map (· + 1)

/-- `changeFileExtension`: strip the extension after the last dot when
`lastIndexOf('.') > 0`, then append the format. -/
def changeFileExtension (filename format : String) : String :=
  let n := filename.data.length
  match firstIdx '.' filename.data.reverse with
  | none => filename ++ "." ++ format
  | some j =>
    let lastDotIndex := n - 1 - j
    if lastDotIndex > 0 then
      (⟨filename.data.take lastDotIndex⟩ : String) ++ "." ++ format
    else filename ++ "." ++ format

/-- `createImageEntries`: one pending record per file; the fresh UUIDs and
the blob URLs minted by `URL.createObjectURL` are external inputs `ids` /
`urls`. -/
def createImageEntries (ids urls : List String) (files : List JSFile)
    (quality : Nat) (outputFormat : Option String) : List ImageFile :=
  (List.zip ids (List.zip urls files)).map fun entry =>
    { id := entry.1
      name :=
        match outputFormat with
        | some fmt => changeFileExtension entry.2.2.name fmt
        | none => entry.2.2.name
      originalSize := entry.2.2.size
      compressedSize := 0
      originalUrl := entry.2.1
      compressedUrl := ""
      status := .pending
      quality := quality }

/-- `addImagesToState`: append each record to the map and the order array. -/
def addImagesToState (images : List ImageFile) (st : SvcState) : SvcState :=
  images.foldl
    (fun acc img =>
      { acc with imagesMap := mapSet acc.imagesMap img.id img,
                 imageOrder := acc.imageOrder ++ [img.id] }) st

instance {ε α : Type} [DecidableEq ε] [DecidableEq α] : DecidableEq (Except ε α) := fun x y =>
  match x, y with
  | .ok a, .ok b =>
    if h : a = b then isTrue (by rw [h])
    else isFalse (by intro hc; cases hc; exact h rfl)
  | .error a, .error b =>
    if h : a = b then isTrue (by rw [h])
    else isFalse (by intro hc; cases hc; exact h rfl)
  | .ok _, .error _ => isFalse (by intro hc; cases hc)
  | .error _, .ok _ => isFalse (by intro hc; cases hc)

/-- Outcome of a `convertFormat` call in the serial model. -/
inductive ConvertOutcome where
  | emptyInput
  | validationFailed (msg : String)
  | ran (result : Except String Unit) (final : SvcState)
deriving DecidableEq

/-- `convertFormat` under the serial schedule: empty-input check,
validation, batch reordering, state seeding, then the drain. -/
def convertFormatSerial (compress : Nat → Except String CompressedFile)
    (abortAt : Option Nat) (ids urls : List String) (files : List JSFile)
    (quality : Nat) (outputFormat : String) (st : SvcState) : ConvertOutcome :=
  if files.length = 0 then .emptyInput
  else
    match validateFiles files with
    | some msg => .validationFailed msg
    | none =>
      let optimizedFiles := optimizeBatchOrder files
      let imageFiles := createImageEntries ids urls optimizedFiles quality (some outputFormat)
      let st₁ := addImagesToState imageFiles st
      let run := drainSerial compress abortAt 0 imageFiles st₁
      .ran run.1 run.2

/-- `abortProcessing` acting on the `abortController` field: with an active
controller it calls `abort()` (second component `true`) and clears the
field; with `null` (as `finalize` leaves it after the batch settles) it
does nothing. -/
def abortProcessing : Option Bool → Option Bool × Bool
  | none => (none, false)
  | some _ => (none, true)

/-- Status of a record in the store, if present. -/
def statusOf (st : SvcState) (id : String) : Option ImageStatus :=
  (mapGet st.imagesMap id).map (fun im => im.status)

/-! ## Store-update lemmas -/

theorem mapGet_updateImageStatus_ne (id id' : String) (stat : ImageStatus)
    (st : SvcState) (h : id' ≠ id) :
    mapGet (updateImageStatus id stat st).imagesMap id' = mapGet st.imagesMap id' := by
  unfold updateImageStatus
  cases hm : mapGet st.imagesMap id with
  | none => rfl
  | some ex => exact mapGet_mapSet_ne _ id id' _ (fun hc => h hc.symm)

theorem mapGet_updateImageOnSuccess_ne (id id' : String) (cf : CompressedFile)
    (st : SvcState) (h : id' ≠ id) :
    mapGet (updateImageOnSuccess id cf st).imagesMap id' = mapGet st.imagesMap id' := by
  unfold updateImageOnSuccess
  cases hm : mapGet st.imagesMap id with
  | none => rfl
  | some ex => exact mapGet_mapSet_ne _ id id' _ (fun hc => h hc.symm)

theorem statusOf_updateImageStatus_self (id : String) (stat : ImageStatus)
    (st : SvcState) (ex : ImageFile) (h : mapGet st.imagesMap id = some ex) :
    statusOf (updateImageStatus id stat st) id = some stat := by
  simp [statusOf, updateImageStatus, h, mapGet_mapSet_self]

theorem mapGet_updateImageStatus_self (id : String) (stat : ImageStatus)
    (st : SvcState) (ex : ImageFile) (h : mapGet st.imagesMap id = some ex) :
    mapGet (updateImageStatus id stat st).imagesMap id = some { ex with status := stat } := by
  simp [updateImageStatus, h, mapGet_mapSet_self]

theorem statusOf_updateImageOnSuccess_self (id : String) (cf : CompressedFile)
    (st : SvcState) (ex : ImageFile) (h : mapGet st.imagesMap id = some ex) :
    statusOf (updateImageOnSuccess id cf st) id = some .completed := by
  simp [statusOf, updateImageOnSuccess, h, mapGet_mapSet_self]

theorem drainSerial_cons_ok (compress : Nat → Except String CompressedFile)
    (abortAt : Option Nat) (i₀ : Nat) (img : ImageFile) (rest : List ImageFile)
    (st : SvcState) (cf : CompressedFile) (hna : abortedAt abortAt i₀ = false)
    (hok : compress i₀ = .ok cf) :
    drainSerial compress abortAt i₀ (img :: rest) st =
      drainSerial compress abortAt (i₀ + 1) rest
        (updateImageOnSuccess img.id cf (updateImageStatus img.id .processing st)) := by
  simp [drainSerial, hna, processImage, hok]

theorem drainSerial_cons_err (compress : Nat → Except String CompressedFile)
    (abortAt : Option Nat) (i₀ : Nat) (img : ImageFile) (rest : List ImageFile)
    (st : SvcState) (e : String) (hna : abortedAt abortAt i₀ = false)
    (herr : compress i₀ = .error e) :
    drainSerial compress abortAt i₀ (img :: rest) st =
      (.error e, updateImageStatus img.id .error (updateImageStatus img.id .processing st)) := by
  simp [drainSerial, hna, processImage, herr]

theorem drainSerial_cons_aborted (compress : Nat → Except String CompressedFile)
    (abortAt : Option Nat) (i₀ : Nat) (img : ImageFile) (rest : List ImageFile)
    (st : SvcState) (hna : abortedAt abortAt i₀ = true) :
    drainSerial compress abortAt i₀ (img :: rest) st = (.error "Operation aborted", st) := by
  simp [drainSerial, hna]

/-- The drain never touches records whose id is not among its entries. -/
theorem drainSerial_frame (compress : Nat → Except String CompressedFile)
    (abortAt : Option Nat) :
    ∀ (entries : List ImageFile) (i₀ : Nat) (st : SvcState) (id : String),
    id ∉ entries.map (fun im => im.id) →
    mapGet (drainSerial compress abortAt i₀ entries st).2.imagesMap id =
      mapGet st.imagesMap id := by
  intro entries
  induction entries with
  | nil => intro i₀ st id _; rfl
  | cons img rest ih =>
    intro i₀ st id hmem
    simp only [List.map_cons, List.mem_cons, not_or] at hmem
    obtain ⟨hne, hrest⟩ := hmem
    cases hna : abortedAt abortAt i₀ with
    | true => simp [drainSerial_cons_aborted compress abortAt i₀ img rest st hna]
    | false =>
      cases hc : compress i₀ with
      | ok cf =>
        rw [drainSerial_cons_ok compress abortAt i₀ img rest st cf hna hc]
        rw [ih (i₀ + 1) _ id hrest]
        rw [mapGet_updateImageOnSuccess_ne _ _ _ _ hne,
          mapGet_updateImageStatus_ne _ _ _ _ hne]
      | error e =>
        rw [drainSerial_cons_err compress abortAt i₀ img rest st e hna hc]
        simp only []
        rw [mapGet_updateImageStatus_ne _ _ _ _ hne,
          mapGet_updateImageStatus_ne _ _ _ _ hne]

/-- First-failure analysis of the serial drain: with no abort, items before
the failing one complete, the failing item is recorded `error`, the error
escapes the stream, and items after it are never dispatched and stay
`pending`. -/
theorem drainSerial_first_failure (compress : Nat → Except String CompressedFile)
    (e : String) :
    ∀ (done : List ImageFile) (failing : ImageFile) (todo : List ImageFile)
      (i₀ : Nat) (st : SvcState),
    (((done ++ failing :: todo).map (fun im => im.id)).Nodup) →
    (∀ im ∈ done ++ failing :: todo, mapGet st.imagesMap im.id = some im) →
    (∀ im ∈ done ++ failing :: todo, im.status = .pending) →
    (∀ i, i < done.length → (compress (i₀ + i)).isOk = true) →
    compress (i₀ + done.length) = .error e →
    (drainSerial compress none i₀ (done ++ failing :: todo) st).1 = .error e ∧
    (∀ im ∈ done,
      statusOf (drainSerial compress none i₀ (done ++ failing :: todo) st).2 im.id =
        some .completed) ∧
    statusOf (drainSerial compress none i₀ (done ++ failing :: todo) st).2 failing.id =
      some .error ∧
    (∀ im ∈ todo,
      statusOf (drainSerial compress none i₀ (done ++ failing :: todo) st).2 im.id =
        some .pending) := by
  intro done
  induction done with
  | nil =>
    intro failing todo i₀ st hnd hseed hpend hok herr
    simp only [List.length_nil, Nat.add_zero] at herr
    simp only [List.nil_append] at hnd hseed hpend ⊢
    rw [drainSerial_cons_err compress none i₀ failing todo st e rfl herr]
    have hfail : mapGet st.imagesMap failing.id = some failing :=
      hseed failing (List.mem_cons_self _ _)
    have hst1 := mapGet_updateImageStatus_self failing.id .processing st failing hfail
    refine ⟨rfl, by simp, ?_, ?_⟩
    · exact statusOf_updateImageStatus_self failing.id .error _ _ hst1
    · intro im hmem
      simp only [List.map_cons, List.nodup_cons] at hnd
      have hne : im.id ≠ failing.id := by
        intro hc
        exact hnd.1 (hc ▸ List.mem_map_of_mem (fun x => x.id) hmem)
      simp only [statusOf]
      rw [mapGet_updateImageStatus_ne _ _ _ _ hne, mapGet_updateImageStatus_ne _ _ _ _ hne,
        hseed im (List.mem_cons_of_mem _ hmem)]
      simp [hpend im (List.mem_cons_of_mem _ hmem)]
  | cons img done' ih =>
    intro failing todo i₀ st hnd hseed hpend hok herr
    have hok0 := hok 0 (Nat.succ_pos _)
    rw [Nat.add_zero] at hok0
    obtain ⟨cf, hcf⟩ : ∃ cf, compress i₀ = .ok cf := by
      cases hc : compress i₀ with
      | ok cf => exact ⟨cf, rfl⟩
      | error e' => rw [hc] at hok0; simp [Except.isOk, Except.toBool] at hok0
    simp only [List.cons_append] at hnd hseed hpend ⊢
    rw [drainSerial_cons_ok compress none i₀ img (done' ++ failing :: todo) st cf rfl hcf]
    simp only [List.map_cons, List.nodup_cons] at hnd
    have himgnotin : img.id ∉ (done' ++ failing :: todo).map (fun im => im.id) := hnd.1
    have himg : mapGet st.imagesMap img.id = some img := hseed img (List.mem_cons_self _ _)
    set st₂ := updateImageOnSuccess img.id cf (updateImageStatus img.id .processing st) with hst₂
    have hseed' : ∀ im ∈ done' ++ failing :: todo, mapGet st₂.imagesMap im.id = some im := by
      intro im hmem
      have hne : im.id ≠ img.id := by
        intro hc
        exact himgnotin (hc ▸ List.mem_map_of_mem (fun x => x.id) hmem)
      rw [hst₂, mapGet_updateImageOnSuccess_ne _ _ _ _ hne,
        mapGet_updateImageStatus_ne _ _ _ _ hne]
      exact hseed im (List.mem_cons_of_mem _ hmem)
    have hok' : ∀ i, i < done'.length → (compress (i₀ + 1 + i)).isOk = true := by
      intro i hi
      have := hok (i + 1) (by simpa using Nat.succ_lt_succ hi)
      rwa [show i₀ + (i + 1) = i₀ + 1 + i by omega] at this
    have herr' : compress (i₀ + 1 + done'.length) = .error e := by
      rwa [show i₀ + 1 + done'.length = i₀ + (img :: done').length by simp; omega]
    obtain ⟨h1, h2, h3, h4⟩ := ih failing todo (i₀ + 1) st₂ hnd.2 hseed'
      (fun im hmem => hpend im (List.mem_cons_of_mem _ hmem)) hok' herr'
    refine ⟨h1, ?_, h3, h4⟩
    intro im hmem
    rcases List.mem_cons.mp hmem with heq | hmem'
    · subst heq
      have hframe := drainSerial_frame compress none (done' ++ failing :: todo) (i₀ + 1)
        st₂ im.id himgnotin
      simp only [statusOf, hframe, hst₂]
      have hproc := mapGet_updateImageStatus_self im.id .processing st im himg
      simp [updateImageOnSuccess, hproc, mapGet_mapSet_self]
    · exact h2 im hmem'

/-- Abort analysis of the serial drain: when the abort fires after `done`
items have settled (and at least one item remains), no further item is
dispatched, the stream errors with `Operation aborted`, the already
completed items keep their `completed` status, and the never-dispatched
items keep their `pending` status (they are not recorded as failed). -/
theorem drainSerial_abort (compress : Nat → Except String CompressedFile) :
    ∀ (done todo : List ImageFile) (i₀ : Nat) (st : SvcState),
    (((done ++ todo).map (fun im => im.id)).Nodup) →
    (∀ im ∈ done ++ todo, mapGet st.imagesMap im.id = some im) →
    (∀ im ∈ done ++ todo, im.status = .pending) →
    (∀ i, i < done.length → (compress (i₀ + i)).isOk = true) →
    todo ≠ [] →
    (drainSerial compress (some (i₀ + done.length)) i₀ (done ++ todo) st).1 =
      .error "Operation aborted" ∧
    (∀ im ∈ done,
      statusOf (drainSerial compress (some (i₀ + done.length)) i₀ (done ++ todo) st).2 im.id =
        some .completed) ∧
    (∀ im ∈ todo,
      statusOf (drainSerial compress (some (i₀ + done.length)) i₀ (done ++ todo) st).2 im.id =
        some .pending) := by
  intro done
  induction done with
  | nil =>
    intro todo i₀ st hnd hseed hpend hok hne
    match todo, hne with
    | t :: ts, _ =>
    simp only [List.nil_append, List.length_nil, Nat.add_zero] at hseed hpend ⊢
    rw [drainSerial_cons_aborted compress (some i₀) i₀ t ts st (by simp [abortedAt])]
    refine ⟨rfl, by simp, ?_⟩
    intro im hmem
    simp only [statusOf, hseed im hmem]
    simp [hpend im hmem]
  | cons img done' ih =>
    intro todo i₀ st hnd hseed hpend hok hne
    have hok0 := hok 0 (Nat.succ_pos _)
    rw [Nat.add_zero] at hok0
    obtain ⟨cf, hcf⟩ : ∃ cf, compress i₀ = .ok cf := by
      cases hc : compress i₀ with
      | ok cf => exact ⟨cf, rfl⟩
      | error e' => rw [hc] at hok0; simp [Except.isOk, Except.toBool] at hok0
    simp only [List.cons_append, List.length_cons] at hnd hseed hpend ⊢
    rw [show i₀ + (done'.length + 1) = i₀ + 1 + done'.length by omega]
    have hnadisp : abortedAt (some (i₀ + 1 + done'.length)) i₀ = false := by
      simp only [abortedAt, decide_eq_false_iff_not]
      omega
    rw [drainSerial_cons_ok compress (some (i₀ + 1 + done'.length)) i₀ img
      (done' ++ todo) st cf hnadisp hcf]
    simp only [List.map_cons, List.nodup_cons] at hnd
    have himgnotin : img.id ∉ (done' ++ todo).map (fun im => im.id) := hnd.1
    have himg : mapGet st.imagesMap img.id = some img := hseed img (List.mem_cons_self _ _)
    set st₂ := updateImageOnSuccess img.id cf (updateImageStatus img.id .processing st) with hst₂
    have hseed' : ∀ im ∈ done' ++ todo, mapGet st₂.imagesMap im.id = some im := by
      intro im hmem
      have hneq : im.id ≠ img.id := by
        intro hc
        exact himgnotin (hc ▸ List.mem_map_of_mem (fun x => x.id) hmem)
      rw [hst₂, mapGet_updateImageOnSuccess_ne _ _ _ _ hneq,
        mapGet_updateImageStatus_ne _ _ _ _ hneq]
      exact hseed im (List.mem_cons_of_mem _ hmem)
    have hok' : ∀ i, i < done'.length → (compress (i₀ + 1 + i)).isOk = true := by
      intro i hi
      have := hok (i + 1) (by simpa using Nat.succ_lt_succ hi)
      rwa [show i₀ + (i + 1) = i₀ + 1 + i by omega] at this
    obtain ⟨h1, h2, h3⟩ := ih todo (i₀ + 1) st₂ hnd.2 hseed'
      (fun im hmem => hpend im (List.mem_cons_of_mem _ hmem)) hok' hne
    refine ⟨h1, ?_, h3⟩
    intro im hmem
    rcases List.mem_cons.mp hmem with heq | hmem'
    · subst heq
      have hframe := drainSerial_frame compress (some (i₀ + 1 + done'.length))
        (done' ++ todo) (i₀ + 1) st₂ im.id himgnotin
      simp only [statusOf, hframe, hst₂]
      have hproc := mapGet_updateImageStatus_self im.id .processing st im himg
      simp [updateImageOnSuccess, hproc, mapGet_mapSet_self]
    · exact h2 im hmem'

/-- C2 (amended) — per-item failure in the serial batch: when the worker
for one item rejects, that item is recorded with status `error` and the
error propagates out of the batch observable (`handleProcessingError`
re-throws), so items dispatched earlier stay `completed` while items after
the failing one are never dispatched and remain `pending` — not the
all-items-still-complete isolation the original claim states. -/
theorem claim_C2_error_propagation (compress : Nat → Except String CompressedFile)
    (e : String) (done : List ImageFile) (failing : ImageFile) (todo : List ImageFile)
    (st : SvcState)
    (hnd : (((done ++ failing :: todo).map (fun im => im.id)).Nodup))
    (hseed : ∀ im ∈ done ++ failing :: todo, mapGet st.imagesMap im.id = some im)
    (hpend : ∀ im ∈ done ++ failing :: todo, im.status = .pending)
    (hok : ∀ i, i < done.length → (compress i).isOk = true)
    (herr : compress done.length = .error e) :
    (drainSerial compress none 0 (done ++ failing :: todo) st).1 = .error e ∧
    (∀ im ∈ done,
      statusOf (drainSerial compress none 0 (done ++ failing :: todo) st).2 im.id =
        some .completed) ∧
    statusOf (drainSerial compress none 0 (done ++ failing :: todo) st).2 failing.id =
      some .error ∧
    (∀ im ∈ todo,
      statusOf (drainSerial compress none 0 (done ++ failing :: todo) st).2 im.id =
        some .pending) := by
  have h := drainSerial_first_failure compress e done failing todo 0 st hnd hseed hpend
    (by intro i hi; simpa using hok i hi) (by simpa using herr)
  exact h

/-- C3 (amended) — abort semantics of the serial batch: once
`abortProcessing` fires (after `done` items settled, with work remaining),
no further item is dispatched to the worker; the batch observable errors
with `Operation aborted`; already-completed items keep `completed`; the
never-dispatched items are NOT recorded as failed — they simply remain
`pending` (there is no cancellation-specific error tag); and calling
`abortProcessing` after the batch has completed (the controller already
cleared by `finalize`) is a no-op. -/
theorem claim_C3_abort_semantics (compress : Nat → Except String CompressedFile)
    (done todo : List ImageFile) (st : SvcState)
    (hnd : (((done ++ todo).map (fun im => im.id)).Nodup))
    (hseed : ∀ im ∈ done ++ todo, mapGet st.imagesMap im.id = some im)
    (hpend : ∀ im ∈ done ++ todo, im.status = .pending)
    (hok : ∀ i, i < done.length → (compress i).isOk = true)
    (hne : todo ≠ []) :
    ((drainSerial compress (some done.length) 0 (done ++ todo) st).1 =
        .error "Operation aborted" ∧
      (∀ im ∈ done,
        statusOf (drainSerial compress (some done.length) 0 (done ++ todo) st).2 im.id =
          some .completed) ∧
      (∀ im ∈ todo,
        statusOf (drainSerial compress (some done.length) 0 (done ++ todo) st).2 im.id =
          some .pending)) ∧
    abortProcessing none = (none, false) := by
  constructor
  · have h := drainSerial_abort compress done todo 0 st hnd hseed hpend
      (by intro i hi; simpa using hok i hi) hne
    rwa [Nat.zero_add] at h
  · rfl

/-- Worker for the batch counterexamples: item at dispatch index 2 rejects,
all others succeed. -/
def exCompressFail : Nat → Except String CompressedFile :=
  fun i => if i = 2 then .error "Compression failed" else .ok ⟨1, "blob:c" ++ natStr i⟩

/-- Worker that always succeeds (for the abort counterexample). -/
def exCompressOk : Nat → Except String CompressedFile :=
  fun i => .ok ⟨1, "blob:c" ++ natStr i⟩

/-- Five equal-sized valid files for the batch counterexamples. -/
def exFiles : List JSFile :=
  [⟨"f0.png", 5, 0, "image/png"⟩, ⟨"f1.png", 5, 0, "image/png"⟩,
   ⟨"f2.png", 5, 0, "image/png"⟩, ⟨"f3.png", 5, 0, "image/png"⟩,
   ⟨"f4.png", 5, 0, "image/png"⟩]

/-- Fresh UUIDs for the batch counterexamples. -/
def exIds : List String := ["i0", "i1", "i2", "i3", "i4"]

/-- Blob URLs minted for the originals in the batch counterexamples. -/
def exUrls : List String := ["u0", "u1", "u2", "u3", "u4"]

/-- Result projection of a `ConvertOutcome` run. -/
def runResult : ConvertOutcome → Option (Except String Unit)
  | .ran r _ => some r
  | _ => none

/-- Final-state projection of a `ConvertOutcome` run. -/
def runFinalState : ConvertOutcome → SvcState
  | .ran _ st => st
  | _ => emptySvcState

/-- Counterexample to C2 as stated: in the serial batch of 5 where item #3's
worker rejects, only the 2 items dispatched before it complete, items #4 and
#5 stay `pending` (they never start), and the error escapes the batch
observable — not 4 completed + 1 error with no escaping error. -/
theorem claim_C2_counterexample :
    runResult (convertFormatSerial exCompressFail none exIds exUrls exFiles 80 "webp"
        emptySvcState) = some (.error "Compression failed") ∧
    (runFinalState (convertFormatSerial exCompressFail none exIds exUrls exFiles 80 "webp"
        emptySvcState)).images.map (fun im => im.status) =
      [.completed, .completed, .error, .pending, .pending] ∧
    ((runFinalState (convertFormatSerial exCompressFail none exIds exUrls exFiles 80 "webp"
        emptySvcState)).images.filter (fun im => im.status == ImageStatus.completed)).length ≠ 4 := by
  decide

/-- Counterexample to C3 as stated: aborting the serial batch of 5 after
item #1 completes leaves items #2–5 `pending` — none of them is recorded
with an error/cancelled status — and the batch observable errors with
`Operation aborted`. -/
theorem claim_C3_counterexample :
    runResult (convertFormatSerial exCompressOk (some 1) exIds exUrls exFiles 80 "webp"
        emptySvcState) = some (.error "Operation aborted") ∧
    (runFinalState (convertFormatSerial exCompressOk (some 1) exIds exUrls exFiles 80 "webp"
        emptySvcState)).images.map (fun im => im.status) =
      [.completed, .pending, .pending, .pending, .pending] ∧
    ((runFinalState (convertFormatSerial exCompressOk (some 1) exIds exUrls exFiles 80 "webp"
        emptySvcState)).images.filter (fun im => im.status == ImageStatus.error)).length = 0 := by
  decide

/-- A pending seeded record for the batch witnesses. -/
def exEntry (i : Nat) : ImageFile :=
  { id := "i" ++ natStr i, name := "f", originalSize := 5, compressedSize := 0,
    originalUrl := "u" ++ natStr i, compressedUrl := "", status := .pending, quality := 80 }

/-- Service state seeded with five pending records. -/
def exSeedState : SvcState :=
  addImagesToState [exEntry 0, exEntry 1, exEntry 2, exEntry 3, exEntry 4] emptySvcState

/-- Witness for the amended C2 on the concrete 5-item serial batch with
item #3 failing: items #1–2 completed, item #3 `error`, items #4–5 still
`pending`, error out of the stream. -/
theorem claim_C2_witness :
    (drainSerial exCompressFail none 0
        ([exEntry 0, exEntry 1] ++ exEntry 2 :: [exEntry 3, exEntry 4]) exSeedState).1 =
      .error "Compression failed" ∧
    (∀ im ∈ [exEntry 0, exEntry 1],
      statusOf (drainSerial exCompressFail none 0
        ([exEntry 0, exEntry 1] ++ exEntry 2 :: [exEntry 3, exEntry 4]) exSeedState).2 im.id =
        some .completed) ∧
    statusOf (drainSerial exCompressFail none 0
        ([exEntry 0, exEntry 1] ++ exEntry 2 :: [exEntry 3, exEntry 4]) exSeedState).2
      (exEntry 2).id = some .error ∧
    (∀ im ∈ [exEntry 3, exEntry 4],
      statusOf (drainSerial exCompressFail none 0
        ([exEntry 0, exEntry 1] ++ exEntry 2 :: [exEntry 3, exEntry 4]) exSeedState).2 im.id =
        some .pending) :=
  claim_C2_error_propagation exCompressFail "Compression failed"
    [exEntry 0, exEntry 1] (exEntry 2) [exEntry 3, exEntry 4] exSeedState
    (by decide) (by decide) (by decide) (by decide) (by decide)

/-- Witness for the amended C3 on the concrete 5-item serial batch aborted
after item #1: item #1 completed, items #2–5 `pending`, stream errors with
`Operation aborted`; aborting with no active controller is a no-op. -/
theorem claim_C3_witness :
    ((drainSerial exCompressOk (some ([exEntry 0] : List ImageFile).length) 0
        ([exEntry 0] ++ [exEntry 1, exEntry 2, exEntry 3, exEntry 4]) exSeedState).1 =
      .error "Operation aborted" ∧
    (∀ im ∈ [exEntry 0],
      statusOf (drainSerial exCompressOk (some ([exEntry 0] : List ImageFile).length) 0
        ([exEntry 0] ++ [exEntry 1, exEntry 2, exEntry 3, exEntry 4]) exSeedState).2 im.id =
        some .completed) ∧
    (∀ im ∈ [exEntry 1, exEntry 2, exEntry 3, exEntry 4],
      statusOf (drainSerial exCompressOk (some ([exEntry 0] : List ImageFile).length) 0
        ([exEntry 0] ++ [exEntry 1, exEntry 2, exEntry 3, exEntry 4]) exSeedState).2 im.id =
        some .pending)) ∧
    abortProcessing none = (none, false) :=
  claim_C3_abort_semantics exCompressOk [exEntry 0]
    [exEntry 1, exEntry 2, exEntry 3, exEntry 4] exSeedState
    (by decide) (by decide) (by decide) (by decide) (by decide)

/-! ## Synchronous phase of `convertFormat` and the `mergeMap` limit (claim C8) -/

/-- What `convertFormat` returns synchronously: the `EMPTY` observable on
no input, a `throwError(...)` observable on failed file validation, or the
piped batch observable carrying the `mergeMap` concurrency argument
(`options.concurrency ?? ImageHelpers.getOptimalConcurrency()`).  The
method body contains no `throw` statement at all, and the concurrency value
is never inspected before being handed to `mergeMap`. -/
inductive SyncReturn where
  | emptyObs
  | errorObs (msg : String)
  | batchObs (concurrency : Int)
deriving DecidableEq

/-- The synchronous prefix of `convertFormat` (everything before the
returned observable is subscribed), with the device-derived
`getOptimalConcurrency()` as a parameter. -/
def convertFormatSyncPhase (files : List JSFile) (concurrency : Option Int)
    (optimalConcurrency : Int) : SyncReturn :=
  if files.length = 0 then .emptyObs
  else
    match validateFiles files with
    | some msg => .errorObs msg
    | none => .batchObs (concurrency.getD optimalConcurrency)

/-- How many of `items` RxJS `mergeMap` starts on subscription with the
given `concurrent` argument: the admission loop starts an inner only while
`active < concurrent`, so a non-positive limit admits nothing (the
observable stalls) and a limit at or above the item count starts them all. -/
def mergeMapInitialDispatch (concurrent : Int) (items : Nat) : Nat :=
  if concurrent ≤ 0 then 0 else min concurrent.toNat items

/-- C8 (amended) — `convertFormat` performs no validation of the
concurrency option: for any non-empty, valid file list the synchronous
phase returns the batch observable carrying whatever concurrency value was
passed — a value `< 1` is accepted silently (and the resulting `mergeMap`
admits no item, so the batch stalls instead of failing synchronously),
while a limit at or above the item count degenerates to full parallelism. -/
theorem claim_C8_no_concurrency_validation (files : List JSFile) (c : Int)
    (opt : Int) (n : Nat) (hne : files.length ≠ 0)
    (hval : validateFiles files = none) :
    convertFormatSyncPhase files (some c) opt = .batchObs c ∧
    (c ≤ 0 → mergeMapInitialDispatch c n = 0) ∧
    ((n : Int) ≤ c → mergeMapInitialDispatch c n = n) := by
  refine ⟨?_, ?_, ?_⟩
  · simp [convertFormatSyncPhase, hne, hval, Option.getD]
  · intro h
    simp [mergeMapInitialDispatch, h]
  · intro h
    simp only [mergeMapInitialDispatch]
    by_cases hc : c ≤ 0
    · have hn : n = 0 := by omega
      simp [hc, hn]
    · rw [if_neg hc]
      have hn : n ≤ c.toNat := by omega
      exact Nat.min_eq_right hn

/-- Counterexample to C8 as stated: with a valid single-file input and
concurrency 0 (`< 1`), the call does not fail synchronously — it returns
the batch observable carrying limit 0, and that limit admits no item. -/
theorem claim_C8_counterexample :
    convertFormatSyncPhase [⟨"a.png", 5, 1, "image/png"⟩] (some 0) 4 = .batchObs 0 ∧
    mergeMapInitialDispatch 0 1 = 0 := by
  decide

/-- Witness for the amended C8: concurrency 0 is accepted and admits
nothing; concurrency 7 on 3 items starts all 3. -/
theorem claim_C8_witness :
    (convertFormatSyncPhase [⟨"a.png", 5, 1, "image/png"⟩] (some 0) 4 = .batchObs 0 ∧
      mergeMapInitialDispatch 0 3 = 0) ∧
    (convertFormatSyncPhase [⟨"a.png", 5, 1, "image/png"⟩] (some 7) 4 = .batchObs 7 ∧
      mergeMapInitialDispatch 7 3 = 3) := by
  have h0 := claim_C8_no_concurrency_validation [⟨"a.png", 5, 1, "image/png"⟩] 0 4 3
    (by decide) (by decide)
  have h7 := claim_C8_no_concurrency_validation [⟨"a.png", 5, 1, "image/png"⟩] 7 4 3
    (by decide) (by decide)
  exact ⟨⟨h0.1, h0.2.1 (by decide)⟩, ⟨h7.1, h7.2.2 (by decide)⟩⟩

/-! ## removeImage and resource release (claim C9) -/

/-- The blob URLs `revokeImageUrls` revokes for a record (each non-empty
URL, original first). -/
def urlsOf (img : ImageFile) : List String :=
  (if img.originalUrl ≠ "" then [img.originalUrl] else []) ++
  (if img.compressedUrl ≠ "" then [img.compressedUrl] else [])

theorem revokeImageUrls_spec (img : ImageFile) (st : SvcState) :
    (revokeImageUrls img st).imagesMap = st.imagesMap ∧
    (revokeImageUrls img st).imageOrder = st.imageOrder ∧
    (revokeImageUrls img st).revokedUrls = st.revokedUrls ++ urlsOf img := by
  unfold revokeImageUrls urlsOf
  by_cases h1 : img.originalUrl ≠ "" <;> by_cases h2 : img.compressedUrl ≠ "" <;>
    simp [h1, h2]

/-- Deleting one key from a coherent store excises exactly that record from
the order-driven snapshot. -/
theorem images_filter_delete (order : List String) (m : List (String × ImageFile))
    (id : String)
    (hcoh : ∀ k im, mapGet m k = some im → im.id = k) :
    (order.filter (fun oid => oid != id)).filterMap (fun oid => mapGet (mapDelete m id) oid) =
      (order.filterMap (fun oid => mapGet m oid)).filter (fun im => im.id != id) := by
  induction order with
  | nil => rfl
  | cons oid rest ih =>
    by_cases h : oid = id
    · subst h
      simp only [List.filter_cons, bne_self_eq_false, Bool.false_eq_true, if_false,
        List.filterMap_cons]
      cases hm : mapGet m oid with
      | none => simpa using ih
      | some im =>
        have : im.id = oid := hcoh oid im hm
        simp only [List.filter_cons, this, bne_self_eq_false, Bool.false_eq_true, if_false]
        exact ih
    · have hbne : (oid != id) = true := by simp [bne, h]
      simp only [List.filter_cons, hbne, if_true, List.filterMap_cons]
      rw [mapGet_mapDelete_ne m id oid (fun hc => h hc.symm)]
      cases hm : mapGet m oid with
      | none => exact ih
      | some im =>
        have him : im.id = oid := hcoh oid im hm
        have hbne' : (im.id != id) = true := by simp [bne, him, h]
        simp only [List.filter_cons, hbne', if_true]
        rw [ih]

theorem mapGet_coherent {m : List (String × ImageFile)} {k : String} {im : ImageFile}
    (hcoh : ∀ p ∈ m, p.2.id = p.1) (h : mapGet m k = some im) : im.id = k := by
  induction m with
  | nil => simp [mapGet] at h
  | cons p t ih =>
    obtain ⟨k', v'⟩ := p
    by_cases hk : k' = k
    · simp only [mapGet, if_pos hk, Option.some.injEq] at h
      rw [← h, ← hk]
      exact hcoh (k', v') (List.mem_cons_self _ _)
    · simp only [mapGet, if_neg hk] at h
      exact ih (fun p hp => hcoh p (List.mem_cons_of_mem _ hp)) h

/-- C9 — `removeImage` excises exactly the requested record while keeping
the insertion order of the rest, and synchronously revokes that record's
blob URLs (each exactly once, before the record leaves the map);
`removeImage` of an absent id is a no-op that revokes nothing. -/
theorem claim_C9_remove_image (st : SvcState) (id : String) (img : ImageFile)
    (hcoh : ∀ p ∈ st.imagesMap, p.2.id = p.1) :
    (mapGet st.imagesMap id = none → removeImage id st = st) ∧
    (mapGet st.imagesMap id = some img →
      (removeImage id st).images = st.images.filter (fun im => im.id != id) ∧
      (removeImage id st).revokedUrls = st.revokedUrls ++ urlsOf img) := by
  constructor
  · intro h
    simp [removeImage, h]
  · intro h
    obtain ⟨hm, ho, hr⟩ := revokeImageUrls_spec img st
    simp only [removeImage, h]
    constructor
    · simp only [SvcState.images, hm, ho]
      exact images_filter_delete st.imageOrder st.imagesMap id
        (fun k im hk => mapGet_coherent hcoh hk)
    · exact hr

/-- Records for the C9 witness: state `[A, B, C]`. -/
def c9A : ImageFile :=
  { id := "a", name := "a.png", originalSize := 1, compressedSize := 0,
    originalUrl := "blob:a", compressedUrl := "", status := .pending, quality := 80 }

/-- Record `B` (the one removed) with an original and a compressed URL. -/
def c9B : ImageFile :=
  { id := "b", name := "b.png", originalSize := 1, compressedSize := 1,
    originalUrl := "blob:b", compressedUrl := "blob:bc", status := .completed, quality := 80 }

/-- Record `C`. -/
def c9C : ImageFile :=
  { id := "c", name := "c.png", originalSize := 1, compressedSize := 0,
    originalUrl := "blob:c", compressedUrl := "", status := .pending, quality := 80 }

/-- State holding `[A, B, C]` in insertion order. -/
def c9st : SvcState := ⟨[("a", c9A), ("b", c9B), ("c", c9C)], ["a", "b", "c"], []⟩

/-- Witness for C9: removing `B` from `[A, B, C]` leaves snapshot `[A, C]`
and logs exactly `B`'s two blob URLs; removing an absent id changes
nothing. -/
theorem claim_C9_witness :
    removeImage "zzz" c9st = c9st ∧
    (removeImage "b" c9st).images = c9st.images.filter (fun im => im.id != "b") ∧
    (removeImage "b" c9st).revokedUrls = c9st.revokedUrls ++ urlsOf c9B ∧
    (removeImage "b" c9st).images = [c9A, c9C] ∧
    (removeImage "b" c9st).revokedUrls = ["blob:b", "blob:bc"] := by
  have habsent := (claim_C9_remove_image c9st "zzz" c9B (by decide)).1 (by decide)
  have hb := (claim_C9_remove_image c9st "b" c9B (by decide)).2 (by decide)
  exact ⟨habsent, hb.1, hb.2, by decide, by decide⟩
